import Mathlib

/-!
Verification of the recipe-extraction and nutrition-estimation pipeline
(the Supabase edge function embedded in the repository's project overview).

Modelling conventions:
* JavaScript numbers are modelled as exact rationals (`Rat`); IEEE-754
  rounding is abstracted away.  All concrete values appearing in the
  claims (1.5, 0.5, 250, 425.25, ...) are exactly representable.
* Strings are Lean `String`s; the small regular expressions of the source
  are hand-compiled to character-list scanners with the same matching
  semantics (anchoring, greediness and the relevant backtracking cases
  are noted where they matter).
* Network effects (the page fetch, the USDA food search, the Claude API
  call) and the DOM (`querySelector` etc.) cannot be embedded; their
  *results* are parameters: the parsed JSON-LD script blocks of the page,
  the outcome of each DOM-based extractor, and a food-name → per-100g
  nutrient-map lookup function stand for the corresponding effects.
-/

-- Batteries marks the `Rat` operations `@[irreducible]`, which blocks
-- kernel evaluation of concrete rational arithmetic in `decide`; restore
-- the ordinary reducibility for this development.
set_option allowUnsafeReducibility true
attribute [local semireducible] Rat.ofScientific Rat.mul Rat.inv Rat.add Rat.sub

namespace Recipe

/-- The whitespace class used by the source's `\s` regex escapes, `trim`
and `parseFloat` (restricted to its ASCII part). -/
def jsIsWs (c : Char) : Bool :=
  c = ' ' || c = '\t' || c = '\n' || c = '\r' || c = '\x0b' || c = '\x0c'

/-- `\w` of JavaScript regexes: `[A-Za-z0-9_]`. -/
def isWordChar (c : Char) : Bool :=
  ('a' ≤ c && c ≤ 'z') || ('A' ≤ c && c ≤ 'Z') || ('0' ≤ c && c ≤ '9') || c = '_'

/-- `String.prototype.toLowerCase` on its ASCII part (`A`–`Z` ↦ `a`–`z`). -/
def jsLowerChar (c : Char) : Char :=
  if 65 ≤ c.toNat ∧ c.toNat ≤ 90 then Char.ofNat (c.toNat + 32) else c

def jsToLower (s : String) : String := ⟨s.data.map jsLowerChar⟩

def trimLeadingWs (l : List Char) : List Char := l.dropWhile jsIsWs

/-- `String.prototype.trim` (ASCII whitespace). -/
def jsTrim (s : String) : String :=
  ⟨((trimLeadingWs s.data.reverse).reverse) |> trimLeadingWs⟩

/-- `haystack.includes(needle)`: substring containment. -/
def listContainsSub (needle : List Char) : List Char → Bool
  | [] => needle.isPrefixOf []
  | c :: rest => needle.isPrefixOf (c :: rest) || listContainsSub needle rest

def jsIncludes (haystack needle : String) : Bool :=
  listContainsSub needle.data haystack.data

/-- The numeric value of a digit list (most significant first). -/
def digitsToNat (l : List Char) : Nat :=
  l.foldl (fun acc c => acc * 10 + (c.toNat - 48)) 0

/-- `parseInt(s, 10)`: skip whitespace, optional sign, then a decimal
digit run; `NaN` (here `none`) when no digit follows. -/
def jsParseInt (s : String) : Option Int :=
  let cs := trimLeadingWs s.data
  let core : List Char → Option Nat := fun l =>
    let ds := l.takeWhile Char.isDigit
    if ds.isEmpty then none else some (digitsToNat ds)
  match cs with
  | '-' :: rest => (core rest).map (fun n => -(n : Int))
  | '+' :: rest => (core rest).map (fun n => (n : Int))
  | _ => (core cs).map (fun n => (n : Int))

/-- The fractional-digits part of `parseFloat`: after the integer digits,
an optional `.`-led digit run, with the rest of the input. -/
def fracPart : List Char → List Char × List Char
  | '.' :: r => (r.takeWhile Char.isDigit, r.dropWhile Char.isDigit)
  | l => ([], l)

/-- The mantissa value `intpart.fracpart`. -/
def floatMant (intDs fracDs : List Char) : Rat :=
  (digitsToNat intDs : Rat) + (digitsToNat fracDs : Rat) / ((10 : Rat) ^ fracDs.length)

/-- The optional exponent sign (`true` = negative) and what follows. -/
def expSign : List Char → Bool × List Char
  | '-' :: t => (true, t)
  | '+' :: t => (false, t)
  | r' => (false, r')

/-- An exponent suffix after `e`/`E`: optional sign, then a digit run;
empty digits mean the exponent is ignored, as `parseFloat` stops before
a malformed suffix. -/
def expApplyCore (mant : Rat) (r' : List Char) : Rat :=
  let eds := (expSign r').2.takeWhile Char.isDigit
  if eds.isEmpty then mant
  else if (expSign r').1 then mant / ((10 : Rat) ^ digitsToNat eds)
  else mant * ((10 : Rat) ^ digitsToNat eds)

def expApply (mant : Rat) : List Char → Rat
  | 'e' :: r' => expApplyCore mant r'
  | 'E' :: r' => expApplyCore mant r'
  | _ => mant

/-- The unsigned part of `parseFloat`: `digits [. digits] [e[±]digits]`,
requiring at least one mantissa digit. -/
def jsParseFloatMag (l : List Char) : Option Rat :=
  let intDs := l.takeWhile Char.isDigit
  let fracDs := (fracPart (l.dropWhile Char.isDigit)).1
  let rest2 := (fracPart (l.dropWhile Char.isDigit)).2
  if intDs.isEmpty ∧ fracDs.isEmpty then none
  else some (expApply (floatMant intDs fracDs) rest2)

/-- `parseFloat(s)` (without the `Infinity` literals, which no rational
models and which no input of this pipeline produces). -/
def jsParseFloat (s : String) : Option Rat :=
  match trimLeadingWs s.data with
  | '-' :: rest => (jsParseFloatMag rest).map Neg.neg
  | '+' :: rest => jsParseFloatMag rest
  | cs => jsParseFloatMag cs

/-- `Math.round`: half rounds toward positive infinity. -/
def jsRound (q : Rat) : Int := (q + 1/2).floor

/-- `Math.round(v * 10) / 10`: round to the nearest tenth. -/
def jsRound1 (q : Rat) : Rat := (jsRound (q * 10) : Rat) / 10

mutual

/-- `s.split(/\s+/)`: accumulates the current token while scanning. -/
def splitWsTok (cur : List Char) : List Char → List String
  | [] => [⟨cur.reverse⟩]
  | c :: rest =>
    if jsIsWs c then ⟨cur.reverse⟩ :: splitWsSkip rest else splitWsTok (c :: cur) rest

/-- After a whitespace run: skip it, then start the next token (an empty
final token when the string ends in whitespace, as in JavaScript). -/
def splitWsSkip : List Char → List String
  | [] => [⟨[]⟩]
  | c :: rest => if jsIsWs c then splitWsSkip rest else splitWsTok [c] rest

end

/-- `s.split(/\s+/)` (the source always splits an already-trimmed string,
so no leading empty token can arise). -/
def jsSplitWs (s : String) : List String := splitWsTok [] s.data

/-- `s.split(/[,;]/)[0]`: the prefix before the first comma or semicolon. -/
def jsFirstSplit (s : String) : String :=
  ⟨s.data.takeWhile (fun c => !(c = ',' || c = ';'))⟩

/-- Association-list lookup standing for JavaScript object indexing on the
static configuration tables. -/
def tableGet (t : List (String × Rat)) (k : String) : Option Rat :=
  (t.find? (fun e => e.1 = k)).map (·.2)

-- ─── The static tables of the source (unit → grams, density, nutrients) ──────

/-- `UNIT_G`: unit → approximate gram weight. -/
def UNIT_G : List (String × Rat) :=
  [("g", 1), ("gram", 1), ("grams", 1), ("mg", 0.001), ("kg", 1000),
   ("oz", 28.35), ("lb", 453.59), ("pound", 453.59), ("pounds", 453.59),
   ("ml", 1), ("l", 1000), ("cup", 240), ("cups", 240),
   ("tbsp", 15), ("tablespoon", 15), ("tablespoons", 15),
   ("tsp", 5), ("teaspoon", 5), ("teaspoons", 5),
   ("fl oz", 30), ("pint", 473), ("quart", 946),
   ("large", 50), ("medium", 35), ("small", 25), ("clove", 5), ("cloves", 5),
   ("bunch", 80), ("slice", 30), ("slices", 30), ("piece", 40), ("pieces", 40),
   ("stalk", 40), ("stalks", 40), ("sprig", 5), ("sprigs", 5),
   ("strip", 25), ("strips", 25)]

/-- `DENSITY_PER_CUP`, in the source's insertion order (the order is
significant: the first substring match wins). -/
def DENSITY_PER_CUP : List (String × Rat) :=
  [("flour", 125), ("all-purpose flour", 125), ("bread flour", 130), ("cake flour", 114),
   ("almond flour", 112), ("whole wheat flour", 130), ("cocoa powder", 85),
   ("bread crumbs", 120), ("breadcrumbs", 120),
   ("sugar", 200), ("brown sugar", 220), ("powdered sugar", 120), ("granulated sugar", 200),
   ("butter", 227), ("olive oil", 216), ("oil", 218), ("vegetable oil", 218),
   ("coconut oil", 218),
   ("honey", 340), ("maple syrup", 322), ("agave", 340),
   ("rice", 185), ("rolled oats", 90), ("oats", 90),
   ("milk", 245), ("cream", 240), ("yogurt", 245), ("sour cream", 230)]

/-- `VOLUME_UNITS`. -/
def VOLUME_UNITS : List String :=
  ["ml", "l", "cup", "cups", "tbsp", "tablespoon", "tablespoons",
   "tsp", "teaspoon", "teaspoons", "fl oz", "pint", "quart"]

/-- The keys of `NUTRIENT_IDS` in insertion order — the order
`Object.entries` iterates in `calcFromIngredients`. -/
def nutrientKeys : List String :=
  ["calories", "protein_g", "fat_g", "carbs_g", "fiber_g", "sugar_g",
   "sodium_mg", "saturated_fat_g"]

-- ─── parseFraction / parseQuantity ───────────────────────────────────────────

/-- `s.split('/')` (single-character separator). -/
def splitSlash : List Char → List (List Char)
  | [] => [[]]
  | c :: rest =>
    if c = '/' then [] :: splitSlash rest
    else
      match splitSlash rest with
      | t :: ts => (c :: t) :: ts
      | [] => [[c]]

/-- `parseFraction`: `s.trim().split('/')`; exactly two parts, both
`parseFloat`-parseable, denominator non-zero. -/
def parseFraction (s : String) : Option Rat :=
  match (splitSlash (jsTrim s).data).map (fun p => jsParseFloat ⟨p⟩) with
  | [some num, some den] => if den ≠ 0 then some (num / den) else none
  | _ => none

/-- A maximal run of the `[\d.]` character class, returned with the rest;
fails on an empty run.  (Greedy matching with no profitable backtracking:
whenever the regex follows such a run by `\s`, a dash, `$` or a literal
that is outside the class, giving characters back cannot help.) -/
def numRun (l : List Char) : Option (List Char × List Char) :=
  let run := l.takeWhile (fun c => c.isDigit || c = '.')
  if run.isEmpty then none else some (run, l.dropWhile (fun c => c.isDigit || c = '.'))

/-- A maximal run of decimal digits, failing when empty. -/
def digitRun (l : List Char) : Option (List Char × List Char) :=
  let run := l.takeWhile Char.isDigit
  if run.isEmpty then none else some (run, l.dropWhile Char.isDigit)

/-- `^([\d.]+)\s*[-–]\s*([\d.]+)$`: the captured pair. -/
def matchRangeDash (l : List Char) : Option (List Char × List Char) := do
  let (a, r1) ← numRun l
  let r2 := trimLeadingWs r1
  match r2 with
  | c :: r3 =>
    if c = '-' ∨ c = '–' then
      let (b, r5) ← numRun (trimLeadingWs r3)
      if r5.isEmpty then some (a, b) else none
    else none
  | [] => none

/-- `^([\d.]+)\s+to\s+([\d.]+)$/i`: the captured pair. -/
def matchRangeTo (l : List Char) : Option (List Char × List Char) := do
  let (a, r1) ← numRun l
  match r1 with
  | c :: _ =>
    if jsIsWs c then
      match trimLeadingWs r1 with
      | t :: o :: r4 =>
        if (t = 't' ∨ t = 'T') ∧ (o = 'o' ∨ o = 'O') then
          match r4 with
          | w :: r5 =>
            if jsIsWs w then
              let (b, r6) ← numRun (trimLeadingWs r5)
              if r6.isEmpty then some (a, b) else none
            else none
          | [] => none
        else none
      | _ => none
    else none
  | [] => none

/-- `^([\d.]+)\s+(\d+\/\d+)$`: whole-number capture and fraction capture
(the latter kept as its two digit runs). -/
def matchMixed (l : List Char) : Option (List Char × List Char × List Char) := do
  let (a, r1) ← numRun l
  match r1 with
  | c :: _ =>
    if jsIsWs c then
      let r2 := trimLeadingWs r1
      let (n, r3) ← digitRun r2
      match r3 with
      | '/' :: r4 =>
        let (d, r5) ← digitRun r4
        if r5.isEmpty then some (a, n, d) else none
      | _ => none
    else none
  | [] => none

/-- `parseQuantity`: range (average) → mixed number → simple fraction →
plain number, falling through exactly when the source does (a matched
alternative whose captures parse to `NaN` falls through too). -/
def parseQuantity (s : String) : Option Rat :=
  let range :=
    match matchRangeDash s.data with
    | some ab => some ab
    | none => matchRangeTo s.data
  let viaRange : Option Rat :=
    match range with
    | some (a, b) =>
      match jsParseFloat ⟨a⟩, jsParseFloat ⟨b⟩ with
      | some x, some y => some ((x + y) / 2)
      | _, _ => none
    | none => none
  match viaRange with
  | some q => some q
  | none =>
    let viaMixed : Option Rat :=
      match matchMixed s.data with
      | some (a, n, d) =>
        match jsParseFloat ⟨a⟩, parseFraction ⟨n ++ '/' :: d⟩ with
        | some w, some f => some (w + f)
        | _, _ => none
      | none => none
    match viaMixed with
    | some q => some q
    | none =>
      let viaFraction : Option Rat :=
        if s.data.contains '/' then parseFraction s else none
      match viaFraction with
      | some q => some q
      | none => jsParseFloat s

-- ─── parseIngredient ─────────────────────────────────────────────────────────

/-- Case-insensitive match of a (lower-case) phrase at the head of the
input, returning the rest on success. -/
def phraseAt : List Char → List Char → Option (List Char)
  | [], rest => some rest
  | _ :: _, [] => none
  | p :: ps, c :: cs => if jsLowerChar c = p then phraseAt ps cs else none

/-- `\b` after a match: end of input or a non-word character. -/
def boundaryAfter : List Char → Bool
  | [] => true
  | c :: _ => !isWordChar c

/-- The scan behind `/\b(to taste|as needed|optional)\b/i.test(str)`:
`prevW` records whether the previous character was a word character
(no `\b` holds there). -/
def guardScan (phrases : List (List Char)) : Bool → List Char → Bool
  | _, [] => false
  | prevW, c :: rest =>
    (!prevW &&
      phrases.any (fun p =>
        match phraseAt p (c :: rest) with
        | some r => boundaryAfter r
        | none => false))
    || guardScan phrases (isWordChar c) rest

def skipPhrases : List (List Char) :=
  ["to taste".data, "as needed".data, "optional".data]

/-- The "to taste / as needed / optional" skip guard of `parseIngredient`. -/
def skipGuard (s : String) : Bool := guardScan skipPhrases false s.data

/-- Case-insensitive literal prefix; the alternations this serves
(`oz|g|ml|lb`, `can|jar|bottle`) have no alternative that is a prefix of
another, so first-match is the regex's match. -/
def ciLit (lit : List Char) (l : List Char) : Option (List Char) := phraseAt lit l

/-- The parenthetical-can regex
`^([\d\s/.-]+)\s*\(\s*([\d.]+)\s*(oz|g|ml|lb)\s*\)\s*(?:can|jar|bottle)s?\s+(.+)/i`,
returning the four captures.  Group 1 followed by `\s*` and a literal `(`
is equivalent to the maximal `[\d\s/.-]` run followed directly by `(`,
since every character `\s*` could absorb is already in the class. -/
def canMatch (l : List Char) : Option (List Char × List Char × String × List Char) := do
  let cls : Char → Bool := fun c => c.isDigit || jsIsWs c || c = '/' || c = '.' || c = '-'
  let g1 := l.takeWhile cls
  if g1.isEmpty then none else pure ()
  match l.dropWhile cls with
  | '(' :: r1 =>
    let (g2, r2) ← numRun (trimLeadingWs r1)
    let r3 := trimLeadingWs r2
    let (g3, r4) ← (["oz", "g", "ml", "lb"].firstM (fun u => (ciLit u.data r3).map (u, ·)))
    match trimLeadingWs r4 with
    | ')' :: r5 =>
      let r6 := trimLeadingWs r5
      let (_, r7) ← (["can", "jar", "bottle"].firstM (fun w => (ciLit w.data r6).map (w, ·)))
      let r8 :=
        match r7 with
        | 's' :: t => t
        | 'S' :: t => t
        | _ => r7
      match r8 with
      | c :: _ =>
        if jsIsWs c then
          -- `\s+` then `(.+)`: `.` matches neither `\n` nor `\r`
          let g4 := (trimLeadingWs r8).takeWhile (fun x => !(x = '\n' || x = '\r'))
          if g4.isEmpty then none else some (g1, g2, g3, g4)
        else none
      | [] => none
    | _ => none
  | _ => none

structure ParsedIngredient where
  gramWeight : Rat
  foodName : String
  deriving DecidableEq, Repr

/-- The parenthetical-can branch of `parseIngredient`; `none` both when
the regex does not match and when the size parses to `NaN` (either way
the source falls through to the token-based branch). -/
def canBranch (s : String) : Option ParsedIngredient :=
  match canMatch s.data with
  | none => none
  | some (g1, g2, g3, g4) =>
    let count := (parseQuantity (jsTrim ⟨g1⟩)).getD 1
    match jsParseFloat ⟨g2⟩ with
    | none => none
    | some size =>
      let unit := jsToLower g3
      let food := jsTrim (jsFirstSplit ⟨g4⟩)
      let unitG := (tableGet UNIT_G unit).getD 1
      some { gramWeight := count * size * unitG, foodName := food }

/-- The quantity loop: try `parseQuantity` on the first
`min 3 tokens.length` down to 1 tokens; on success, the unit search
starts after the consumed tokens. -/
def qtyFromTokens (tokens : List String) : Option (Rat × Nat) :=
  let m := min 3 tokens.length
  ((List.range m).reverse.map (· + 1)).findSome? (fun len =>
    (parseQuantity (String.intercalate " " (tokens.take len))).map (·, len))

/-- Token `i` of the list, `""` standing for JavaScript's `undefined`
(a token is never the empty string here, so the two are separable). -/
def tokAt (tokens : List String) (i : Nat) : Option String := tokens.get? i

/-- The token-based branch of `parseIngredient` (everything after the
parenthetical-can attempt), on the trimmed line. -/
def tokenBranch (s : String) : Option ParsedIngredient :=
      let tokens := jsSplitWs s
      if tokens.isEmpty then none
      else
        match qtyFromTokens tokens with
        | none => none
        | some (qty, unitStartIdx) =>
          -- two-word unit ("fl oz"), else one-word unit with one trailing
          -- `.`/`,`/`;` stripped, else the "piece" default
          let twoWord : Option (String × Nat) :=
            match tokAt tokens unitStartIdx, tokAt tokens (unitStartIdx + 1) with
            | some t1, some t2 =>
              let w := jsToLower (t1 ++ " " ++ t2)
              if (tableGet UNIT_G w).isSome then some (w, unitStartIdx + 2) else none
            | _, _ => none
          let oneWord : Option (String × Nat) :=
            match tokAt tokens unitStartIdx with
            | some t1 =>
              let w0 := jsToLower t1
              let w : String :=
                match w0.data.reverse with
                | c :: rest => if c = '.' ∨ c = ',' ∨ c = ';' then ⟨rest.reverse⟩ else w0
                | [] => w0
              if (tableGet UNIT_G w).isSome then some (w, unitStartIdx + 1) else none
            | none => none
          let (unit, foodStartIdx) :=
            match twoWord with
            | some r => r
            | none =>
              match oneWord with
              | some r => r
              | none => ("piece", unitStartIdx)
          let rawFood := String.intercalate " " (tokens.drop foodStartIdx)
          let foodName := jsToLower (jsTrim (jsFirstSplit rawFood))
          if foodName = "" then none
          else
            let base := qty * (tableGet UNIT_G unit).getD 1
            let gramWeight :=
              if VOLUME_UNITS.contains unit then
                let cupRatio := (tableGet UNIT_G unit).getD 240 / 240
                match DENSITY_PER_CUP.find? (fun e => jsIncludes foodName e.1) with
                | some e => qty * cupRatio * e.2
                | none => base
              else base
            some { gramWeight := gramWeight, foodName := foodName }

/-- `parseIngredient`: skip guard, then the parenthetical-can branch,
then the token-based branch. -/
def parseIngredient (str : String) : Option ParsedIngredient :=
  if skipGuard str then none
  else
    let s := jsTrim str
    match canBranch s with
    | some r => some r
    | none => tokenBranch s

-- ─── parseServingsCount / calcFromIngredients ────────────────────────────────

/-- The unanchored search `(\d+)\s*[-–]\s*(\d+)`: at each position that
begins a digit run, try maximal digits, optional whitespace, a dash,
optional whitespace, then a second digit run; advance one character on
failure (leftmost match, and greediness cannot be traded away since no
backtracked digit can match `\s`, a dash or a digit's place). -/
def findRangePair : List Char → Option (Nat × Nat)
  | [] => none
  | c :: rest =>
    (if c.isDigit then
      match digitRun (c :: rest) with
      | some (a, r1) =>
        match trimLeadingWs r1 with
        | d :: r2 =>
          if d = '-' ∨ d = '–' then
            match digitRun (trimLeadingWs r2) with
            | some (b, _) => some (digitsToNat a, digitsToNat b)
            | none => none
          else none
        | [] => none
      | none => none
    else none).orElse (fun _ => findRangePair rest)

/-- The unanchored search `(\d+)`: the first maximal digit run. -/
def findFirstNat : List Char → Option Nat
  | [] => none
  | c :: rest =>
    if c.isDigit then some (digitsToNat ((c :: rest).takeWhile Char.isDigit))
    else findFirstNat rest

/-- `parseServingsCount`: a range averages, else the first embedded
integer, else 1. -/
def parseServingsCount (servingsStr : Option String) : Rat :=
  match servingsStr with
  | none => 1
  | some s =>
    if s = "" then 1  -- `!servingsStr` also catches the empty string
    else
      match findRangePair s.data with
      | some (a, b) => ((a : Rat) + (b : Rat)) / 2
      | none =>
        match findFirstNat s.data with
        | some n => (n : Rat)
        | none => 1

/-- A per-100g nutrient map, the (abstracted) result of one successful
`fetchUSDANutrients` call. -/
def NutrMap : Type := String → Option Rat

/-- The lookup environment standing for the USDA food-search API: what
`fetchUSDANutrients` resolves each food name to (`none` = any failure). -/
def Lookup : Type := String → Option NutrMap

/-- The accumulator pair: `sums` and `counts` of the source, as total
maps defaulting to 0 (`sums[key] ?? 0`; a stored count is never 0, so
`!counts[key]` is exactly `counts key = 0` here). -/
def Accum : Type := (String → Rat) × (String → Nat)

def updMap {α : Type} (f : String → α) (k : String) (v : α) : String → α :=
  fun x => if x = k then v else f x

/-- The inner `for (const [key] of Object.entries(NUTRIENT_IDS))` loop of
`calcFromIngredients` for one looked-up ingredient, over an explicit key
list. -/
def accumStepKeys (gramWeight : Rat) (m : NutrMap) (ks : List String) (acc : Accum) : Accum :=
  ks.foldl
    (fun acc key =>
      match m key with
      | some v => (updMap acc.1 key (acc.1 key + v * (gramWeight / 100)),
                   updMap acc.2 key (acc.2 key + 1))
      | none => acc)
    acc

def accumStep (gramWeight : Rat) (m : NutrMap) (acc : Accum) : Accum :=
  accumStepKeys gramWeight m nutrientKeys acc

/-- The outer accumulation loop over the parsed ingredients paired with
their lookup results. -/
def accumAll (pairs : List (ParsedIngredient × Option NutrMap)) (acc : Accum) : Accum :=
  pairs.foldl
    (fun acc pm =>
      match pm.2 with
      | none => acc
      | some m => accumStep pm.1.gramWeight m acc)
    acc

/-- `ingredients.map(parseIngredient).filter(Boolean)`. -/
def parsedOf (ingredients : List String) : List ParsedIngredient :=
  (ingredients.map parseIngredient).reduceOption

/-- The pipeline's per-serving nutrition record: integer-rounded fields
are `Option Int`, tenth-rounded fields `Option Rat`; `none` is an absent
(`undefined`) field. -/
structure NutritionResult where
  calories : Option Int := none
  protein_g : Option Int := none
  carbs_g : Option Int := none
  fat_g : Option Int := none
  fiber_g : Option Rat := none
  sugar_g : Option Rat := none
  sodium_mg : Option Int := none
  saturated_fat_g : Option Rat := none
  deriving DecidableEq, Repr

/-- `calcFromIngredients` with the concurrent USDA lookups abstracted to
the `lookup` environment (`Promise.all` preserves order, so pairing each
parsed ingredient with its own lookup result is exact). -/
def calcFromIngredients (ingredients : List String) (servingsStr : Option String)
    (lookup : Lookup) : NutritionResult :=
  let servings := parseServingsCount servingsStr
  let parsed := parsedOf ingredients
  let pairs := parsed.map (fun p => (p, lookup p.foodName))
  let acc := accumAll pairs (fun _ => 0, fun _ => 0)
  let perServing : String → Option Rat := fun key =>
    if acc.2 key = 0 then none else some (acc.1 key / servings)
  { calories := (perServing "calories").map jsRound
    protein_g := (perServing "protein_g").map jsRound
    carbs_g := (perServing "carbs_g").map jsRound
    fat_g := (perServing "fat_g").map jsRound
    fiber_g := (perServing "fiber_g").map jsRound1
    sugar_g := (perServing "sugar_g").map jsRound1
    sodium_mg := (perServing "sodium_mg").map jsRound
    saturated_fat_g := (perServing "saturated_fat_g").map jsRound1 }

-- ─── JSON values and the JSON-LD helpers ─────────────────────────────────────

/-- JSON values (numbers as exact rationals).  `undefined` is represented
by `Option.none` at use sites, never inside a `Json`. -/
inductive Json where
  | null : Json
  | bool : Bool → Json
  | num : Rat → Json
  | str : String → Json
  | arr : List Json → Json
  | obj : List (String × Json) → Json
  deriving Repr

mutual

def Json.beq : Json → Json → Bool
  | .null, .null => true
  | .bool a, .bool b => a = b
  | .num a, .num b => a = b
  | .str a, .str b => a = b
  | .arr a, .arr b => Json.beqList a b
  | .obj a, .obj b => Json.beqFields a b
  | _, _ => false

def Json.beqList : List Json → List Json → Bool
  | [], [] => true
  | a :: as, b :: bs => Json.beq a b && Json.beqList as bs
  | _, _ => false

def Json.beqFields : List (String × Json) → List (String × Json) → Bool
  | [], [] => true
  | (k, v) :: as, (k', v') :: bs => k = k' && Json.beq v v' && Json.beqFields as bs
  | _, _ => false

end

mutual

theorem Json.beq_iff : ∀ a b : Json, Json.beq a b = true ↔ a = b
  | .null, b => by cases b <;> simp [Json.beq]
  | .bool x, b => by cases b <;> simp [Json.beq]
  | .num x, b => by cases b <;> simp [Json.beq]
  | .str x, b => by cases b <;> simp [Json.beq]
  | .arr xs, b => by
    cases b <;> simp [Json.beq]
    exact Json.beqList_iff xs _
  | .obj fs, b => by
    cases b <;> simp [Json.beq]
    exact Json.beqFields_iff fs _

theorem Json.beqList_iff : ∀ a b : List Json, Json.beqList a b = true ↔ a = b
  | [], b => by cases b <;> simp [Json.beqList]
  | x :: xs, b => by
    cases b <;> simp [Json.beqList]
    rw [Json.beq_iff, Json.beqList_iff]

theorem Json.beqFields_iff : ∀ a b : List (String × Json), Json.beqFields a b = true ↔ a = b
  | [], b => by cases b <;> simp [Json.beqFields]
  | (k, v) :: xs, b => by
    cases b with
    | nil => simp [Json.beqFields]
    | cons y ys =>
      simp [Json.beqFields, Json.beq_iff, Json.beqFields_iff xs ys, Prod.ext_iff]

end

instance : DecidableEq Json := fun a b =>
  decidable_of_iff (Json.beq a b = true) (Json.beq_iff a b)

deriving instance DecidableEq for Except

namespace Json

/-- Property access `o[k]` — `none` is `undefined` (non-objects have no
own properties here). -/
def getF : Json → String → Option Json
  | .obj fields, k => (fields.find? (fun e => e.1 = k)).map (·.2)
  | _, _ => none

/-- JavaScript truthiness of a value. -/
def truthy : Json → Bool
  | .null => false
  | .bool b => b
  | .num q => q ≠ 0
  | .str s => s ≠ ""
  | .arr _ => true
  | .obj _ => true

/-- Truthiness of a possibly-`undefined` value. -/
def truthyO : Option Json → Bool
  | none => false
  | some j => truthy j

end Json

/-- Decimal rendering of `String(n)` for a JavaScript number, exact when
the rational has a finite decimal expansion of at most 30 places (every
value these claims touch); other rationals — unreachable from the
concrete inputs used here — fall back to a fraction rendering. -/
def numToString (q : Rat) : String :=
  let sign := if q < 0 then "-" else ""
  let n := q.num.natAbs
  let d := q.den
  if d = 1 then sign ++ toString n
  else
    match (List.range 31).find? (fun k => (10 ^ k) % d = 0) with
    | some k =>
      let scaled := n * (10 ^ k / d)
      let whole := scaled / 10 ^ k
      let fracDigits := Nat.toDigits 10 (scaled % 10 ^ k)
      let padded := List.replicate (k - fracDigits.length) '0' ++ fracDigits
      let trimmed := (padded.reverse.dropWhile (· = '0')).reverse
      sign ++ toString whole ++ "." ++ ⟨trimmed⟩
    | none => sign ++ toString n ++ "/" ++ toString d

mutual

/-- `String(v)` for a JSON value. -/
def jsToStrJ : Json → String
  | .null => "null"
  | .bool b => if b then "true" else "false"
  | .num q => numToString q
  | .str s => s
  | .arr xs => jsToStrArr xs
  | .obj _ => "[object Object]"

/-- `Array.prototype.toString`: elements joined by commas. -/
def jsToStrArr : List Json → String
  | [] => ""
  | [x] => jsToStrJ x
  | x :: y :: rest => jsToStrJ x ++ "," ++ jsToStrArr (y :: rest)

end

/-- `String(v)` for a possibly-`undefined` value. -/
def jsToStr : Option Json → String
  | none => "undefined"
  | some j => jsToStrJ j

/-- `parseNutritionInt`: `null`/`undefined` → absent, else strip every
non-digit character from `String(val)` and `parseInt` the rest. -/
def parseNutritionInt (val : Option Json) : Option Int :=
  match val with
  | none => none
  | some .null => none
  | some v => jsParseInt ⟨(jsToStr (some v)).data.filter Char.isDigit⟩

/-- `parseNutritionFloat`: as above but keeping the decimal point and
using `parseFloat`. -/
def parseNutritionFloat (val : Option Json) : Option Rat :=
  match val with
  | none => none
  | some .null => none
  | some v => jsParseFloat ⟨(jsToStr (some v)).data.filter (fun c => c.isDigit || c = '.')⟩

/-- `extractFromSchemaOrg` on the JSON-LD `nutrition` value. -/
def extractFromSchemaOrg (nutrition : Json) : NutritionResult :=
  { calories := parseNutritionInt (nutrition.getF "calories")
    protein_g := parseNutritionInt (nutrition.getF "proteinContent")
    carbs_g := parseNutritionInt (nutrition.getF "carbohydrateContent")
    fat_g := parseNutritionInt (nutrition.getF "fatContent")
    fiber_g := parseNutritionFloat (nutrition.getF "fiberContent")
    sugar_g := parseNutritionFloat (nutrition.getF "sugarContent")
    sodium_mg := parseNutritionInt (nutrition.getF "sodiumContent")
    saturated_fat_g := parseNutritionFloat (nutrition.getF "saturatedFatContent") }

/-- `parseDuration`: find the first `PT`, read an optional `(\d+)H` and
an optional `(\d+)M`, and format; return the input when nothing (or only
zeros) was read. -/
def parseDurationCore : List Char → Option (Nat × Nat)
  | [] => none
  | 'P' :: 'T' :: rest =>
    let (h, r1) :=
      match digitRun rest with
      | some (ds, 'H' :: r) => (digitsToNat ds, r)
      | _ => (0, rest)
    let m :=
      match digitRun r1 with
      | some (ds, 'M' :: _) => digitsToNat ds
      | _ => 0
    some (h, m)
  | _ :: rest => parseDurationCore rest

def parseDuration (iso : String) : String :=
  if iso = "" then ""
  else
    match parseDurationCore iso.data with
    | none => iso
    | some (h, m) =>
      if h ≠ 0 ∧ m ≠ 0 then toString h ++ "h " ++ toString m ++ "m"
      else if h ≠ 0 then toString h ++ "h"
      else if m ≠ 0 then toString m ++ "m"
      else iso

/-- `getImageUrl`: string / first array element / `url` property,
recursively; falsy input gives `undefined`.  The `'url' in image` test is
key presence, so the property's value is returned even when `null`. -/
def getImageUrlJ (img : Json) : Option Json :=
  if !img.truthy then none
  else
    match img with
    | .str s => some (.str s)
    | .arr [] => none  -- `getImageUrl(image[0])` on `undefined`
    | .arr (x :: _) => getImageUrlJ x
    | .obj fields =>
      match fields.find? (fun e => e.1 = "url") with
      | some e => some e.2
      | none => none
    | _ => none

def getImageUrl : Option Json → Option Json
  | none => none
  | some img => getImageUrlJ img

/-- `findRecipe`: depth-first search for an object whose `@type` is
`"Recipe"` (directly or in an array), descending into arrays and truthy
`@graph` values. -/
def isRecipeType : Json → Bool
  | .obj fields =>
    match fields.find? (fun e => e.1 = "@type") with
    | some (_, Json.str t) => t = "Recipe"
    | some (_, Json.arr ts) =>
      ts.any (fun j => match j with | Json.str s => s = "Recipe" | _ => false)
    | _ => false
  | _ => false

def lookupField : List (String × Json) → String → Option Json
  | [], _ => none
  | (k, v) :: rest, key => if k = key then some v else lookupField rest key

mutual

def findRecipe (j : Json) : Option Json :=
  match j with
  | .arr items => findRecipeList items
  | .obj fields =>
    if isRecipeType (.obj fields) then some (.obj fields)
    else findRecipeGraph fields
  | _ => none

/-- The array loop of `findRecipe`. -/
def findRecipeList (items : List Json) : Option Json :=
  match items with
  | [] => none
  | x :: rest =>
    match findRecipe x with
    | some r => some r
    | none => findRecipeList rest

/-- The `@graph` descent: the first `@graph` key's value is followed
when truthy (`lookupField fields "@graph"` inlined so the recursion is
structural). -/
def findRecipeGraph : List (String × Json) → Option Json
  | [] => none
  | (k, v) :: rest =>
    if k = "@graph" then (if v.truthy then findRecipe v else none)
    else findRecipeGraph rest

end

theorem findRecipeGraph_eq_lookup (fields : List (String × Json)) :
    findRecipeGraph fields =
      match lookupField fields "@graph" with
      | some g => if g.truthy then findRecipe g else none
      | none => none := by
  induction fields with
  | nil => rfl
  | cons e rest ih =>
    obtain ⟨k, v⟩ := e
    by_cases hk : k = "@graph" <;> simp [findRecipeGraph, lookupField, hk, ih]

-- ─── Extraction results, validity, and the handler ──────────────────────────

/-- `ExtractionResult`: the shared shape the DOM-based strategies
(microdata, plugin selectors, heading heuristic, Claude) produce.
Optional string fields are `none` for `undefined`. -/
structure ExtractionResult where
  name : String
  description : Option String := none
  ingredients : List String
  instructions : List String
  servings : Option String := none
  prep_time : Option String := none
  cook_time : Option String := none
  image_url : Option String := none
  calories : Option String := none
  protein : Option String := none
  carbs : Option String := none
  fat : Option String := none
  deriving DecidableEq, Repr

/-- `isValid` on a non-null result: truthy name and a non-empty
ingredient or instruction list. -/
def isValidR (r : ExtractionResult) : Bool :=
  r.name ≠ "" && (!r.ingredients.isEmpty || !r.instructions.isEmpty)

/-- `isValid`. -/
def isValid : Option ExtractionResult → Bool
  | none => false
  | some r => isValidR r

/-- Truthiness of an optional string (`undefined` and `""` are falsy). -/
def truthyS : Option String → Bool
  | none => false
  | some s => s ≠ ""

/-- `err(msg)`: the JSON body `{ "error": msg }`. -/
def errBody (msg : String) : Json := .obj [("error", .str msg)]

/-- `JSON.stringify` on a response object drops `undefined`-valued keys:
only the present fields appear in the body. -/
def objFields : List (String × Option Json) → List (String × Json)
  | [] => []
  | (_, none) :: rest => objFields rest
  | (k, some v) :: rest => (k, v) :: objFields rest

def buildObj (fields : List (String × Option Json)) : Json := .obj (objFields fields)

/-- The eight nutrition keys of a response body, from a
`NutritionResult` (absent fields omitted, as `JSON.stringify` does). -/
def nutritionFields (nr : NutritionResult) : List (String × Option Json) :=
  [("calories", nr.calories.map (fun i => .num (i : Rat))),
   ("protein_g", nr.protein_g.map (fun i => .num (i : Rat))),
   ("carbs_g", nr.carbs_g.map (fun i => .num (i : Rat))),
   ("fat_g", nr.fat_g.map (fun i => .num (i : Rat))),
   ("fiber_g", nr.fiber_g.map .num),
   ("sugar_g", nr.sugar_g.map .num),
   ("sodium_mg", nr.sodium_mg.map (fun i => .num (i : Rat))),
   ("saturated_fat_g", nr.saturated_fat_g.map .num)]

/-- The field skeleton shared by the two success-response objects of the
handler (the JSON-LD branch and the DOM branch build literals with
exactly these keys in this order). -/
def recipeBodyFields (url title : String)
    (description image_url servings prep_time cook_time : Option Json)
    (ingredients instructions : List Json) (nr : NutritionResult) :
    List (String × Option Json) :=
  [("title", some (.str title)),
   ("description", description),
   ("image_url", image_url),
   ("source_url", some (.str url)),
   ("servings", servings),
   ("prep_time", prep_time),
   ("cook_time", cook_time),
   ("ingredients", some (.arr ingredients)),
   ("instructions", some (.arr instructions))] ++ nutritionFields nr

/-- The instruction-step mapper of the JSON-LD path; a thrown `TypeError`
(calling `.trim`/`.map` on a non-string/non-array) is the `Except.error`
channel, caught by the handler's top-level `catch`. -/
def stepText (s : Json) : Except String String :=
  match s with
  | .str t => .ok (jsTrim t)
  | .obj fields =>
    match lookupField fields "@type", lookupField fields "itemListElement" with
    | some (.str "HowToSection"), some (.arr items) =>
      let texts : Except String (List String) :=
        items.mapM (fun i =>
          let v : Option Json :=
            match i.getF "text" with
            | some t => if t.truthy then some t else
                match i.getF "name" with
                | some n => if n.truthy then some n else some (.str "")
                | none => some (.str "")
            | none =>
              match i.getF "name" with
              | some n => if n.truthy then some n else some (.str "")
              | none => some (.str "")
          match v with
          | some (.str t) => .ok (jsTrim t)
          | some _ => .error "TypeError"
          | none => .ok "")
      (texts.map (fun ts => String.intercalate " " (ts.filter (· ≠ ""))))
    | _, _ =>
      let v : Option Json :=
        match lookupField fields "text" with
        | some t => if t.truthy then some t else
            match lookupField fields "name" with
            | some n => if n.truthy then some n else some (.str "")
            | none => some (.str "")
        | none =>
          match lookupField fields "name" with
          | some n => if n.truthy then some n else some (.str "")
          | none => some (.str "")
      match v with
      | some (.str t) => .ok (jsTrim t)
      | some _ => .error "TypeError"
      | none => .ok ""
  | .arr _ =>
    -- `typeof [] === 'object'`: property access yields `undefined`, so ''
    .ok ""
  | _ => .ok ""

/-- The JSON-LD instruction extraction
(`rawSteps.map(...).filter(Boolean)`). -/
def jsonLdInstructions (recipe : Json) : Except String (List String) :=
  let rawSteps : Except String (List Json) :=
    match recipe.getF "recipeInstructions" with
    | some v => if v.truthy then
        match v with
        | .arr xs => .ok xs
        | _ => .error "TypeError"
      else .ok []
    | none => .ok []
  match rawSteps with
  | .error e => .error e
  | .ok steps => (steps.mapM stepText).map (fun l => l.filter (· ≠ ""))

/-- The JSON-LD ingredient extraction
(`(recipe.recipeIngredient || []).map(s => s.trim()).filter(Boolean)`). -/
def jsonLdIngredients (recipe : Json) : Except String (List String) :=
  let raw : Except String (List Json) :=
    match recipe.getF "recipeIngredient" with
    | some v => if v.truthy then
        match v with
        | .arr xs => .ok xs
        | _ => .error "TypeError"
      else .ok []
    | none => .ok []
  match raw with
  | .error e => .error e
  | .ok items =>
    let trimmed : Except String (List String) :=
      items.mapM (fun (i : Json) =>
        match i with
        | Json.str s => (Except.ok (jsTrim s) : Except String String)
        | _ => Except.error "TypeError")
    trimmed.map (fun l => l.filter (· ≠ ""))

/-- The JSON-LD servings extraction (`String(...)`, first array element
for lists). -/
def jsonLdServings (recipe : Json) : Option String :=
  match recipe.getF "recipeYield" with
  | some v =>
    if v.truthy then
      match v with
      | .arr xs => some (jsToStr xs.head?)
      | _ => some (jsToStr (some v))
    else none
  | none => none

/-- `hasNutrition` of the JSON-LD path: a truthy `nutrition` object with
a truthy `calories`, `proteinContent` or `carbohydrateContent`. -/
def jsonLdHasNutrition (recipe : Json) : Bool :=
  match recipe.getF "nutrition" with
  | some n =>
    n.truthy &&
      (Json.truthyO (n.getF "calories") || Json.truthyO (n.getF "proteinContent") ||
        Json.truthyO (n.getF "carbohydrateContent"))
  | none => false

/-- The nutrition resolution of the JSON-LD path: embedded facts when
`hasNutrition`, else the USDA aggregation over the extracted
ingredients and servings. -/
def jsonLdNutrition (recipe : Json) (ingredients : List String) (servings : Option String)
    (lookup : Lookup) : NutritionResult :=
  if jsonLdHasNutrition recipe then
    extractFromSchemaOrg ((recipe.getF "nutrition").getD .null)
  else calcFromIngredients ingredients servings lookup

/-- `?.trim() || fallback` on a possibly-absent string-typed field;
throws on a non-string, non-null value. -/
def optTrimmed (v : Option Json) : Except String (Option String) :=
  match v with
  | none => .ok none
  | some .null => .ok none
  | some (.str s) => .ok (if jsTrim s = "" then none else some (jsTrim s))
  | some _ => .error "TypeError"

/-- A `prepTime`/`cookTime` field: `v ? parseDuration(v as string) :
undefined`, throwing on a truthy non-string. -/
def durationField (v : Option Json) : Except String (Option String) :=
  match v with
  | some v =>
    if v.truthy then
      match v with
      | .str s => Except.ok (some (parseDuration s))
      | _ => Except.error "TypeError"
    else Except.ok none
  | none => Except.ok none

/-- The success body of the JSON-LD branch of the handler
(`Except.error` = an exception reaching the top-level `catch`). -/
def buildJsonLd (url : String) (recipe : Json) (lookup : Lookup) : Except String Json := do
  let instructions ← jsonLdInstructions recipe
  let ingredients ← jsonLdIngredients recipe
  let servings := jsonLdServings recipe
  let nutritionResult := jsonLdNutrition recipe ingredients servings lookup
  let title ← (optTrimmed (recipe.getF "name")).map (fun t => (t.getD "Untitled Recipe"))
  let description ← optTrimmed (recipe.getF "description")
  let prep_time ← durationField (recipe.getF "prepTime")
  let cook_time ← durationField (recipe.getF "cookTime")
  .ok (buildObj (recipeBodyFields url title (description.map .str)
    (getImageUrl (recipe.getF "image")) (servings.map .str) (prep_time.map .str)
    (cook_time.map .str) (ingredients.map .str) (instructions.map .str) nutritionResult))

/-- `hasNutrition` of the DOM path (strategies 2–5). -/
def domHasNutrition (e : ExtractionResult) : Bool :=
  truthyS e.calories || truthyS e.protein || truthyS e.carbs

/-- The nutrition resolution of the DOM path: the four tolerantly coerced
fields when `hasNutrition`, else the USDA aggregation. -/
def domNutrition (e : ExtractionResult) (lookup : Lookup) : NutritionResult :=
  if domHasNutrition e then
    { calories := parseNutritionInt (e.calories.map .str)
      protein_g := parseNutritionInt (e.protein.map .str)
      carbs_g := parseNutritionInt (e.carbs.map .str)
      fat_g := parseNutritionInt (e.fat.map .str) }
  else calcFromIngredients e.ingredients e.servings lookup

/-- The success body of the DOM branch of the handler. -/
def domBody (url : String) (e : ExtractionResult) (lookup : Lookup) : Json :=
  buildObj (recipeBodyFields url (if e.name = "" then "Untitled Recipe" else e.name)
    (e.description.map .str) (e.image_url.map .str) (e.servings.map .str)
    (e.prep_time.map .str) (e.cook_time.map .str) (e.ingredients.map .str)
    (e.instructions.map .str) (domNutrition e lookup))

/-- The DOM of a fetched page, abstracted to what the handler consumes:
the JSON-LD script blocks that parse (typed ones first, then the untyped
fallback scan, exactly the order the two regex loops visit them), and
the result each DOM-based extractor would return on this document. -/
structure Page where
  scripts : List Json
  micro : Option ExtractionResult
  plugins : Option ExtractionResult
  heading : Option ExtractionResult
  claude : Option ExtractionResult

/-- The outcome of `fetch(url)`. -/
inductive FetchOutcome where
  | abort : FetchOutcome
  | netErr : String → FetchOutcome
  | resp : Bool → Nat → Page → FetchOutcome

/-- One request's environment: method, parsed body (`Except.error` = a
`req.json()` exception), fetch outcome and the USDA lookup results. -/
structure Env where
  method : String
  body : Except String (Option String)
  fetch : FetchOutcome
  usda : Lookup

/-- Strategies 2–5 in order, each tried only while the previous result is
invalid (`extracted` reassignment chain of the source). -/
def pickDom (p : Page) : Option ExtractionResult :=
  let e1 := p.micro
  let e2 := if isValid e1 then e1 else p.plugins
  let e3 := if isValid e2 then e2 else p.heading
  if isValid e3 then e3 else p.claude

def noRecipeMsg : String :=
  "No recipe found on this page. Try a direct recipe URL from a food blog or major recipe site."

/-- The handler core after a successful fetch: strategy 1 on the raw
markup, then strategies 2–5 on the DOM, then the no-match error. -/
def handleCore (url : String) (page : Page) (lookup : Lookup) : Json :=
  match page.scripts.findSome? findRecipe with
  | some recipe =>
    match buildJsonLd url recipe lookup with
    | .ok b => b
    | .error m => errBody m
  | none =>
    match pickDom page with
    | some e =>
      if isValidR e then domBody url e lookup else errBody noRecipeMsg
    | none => errBody noRecipeMsg

/-- The request handler (`serve` callback).  `none` is the bare CORS
response to `OPTIONS`; every other request produces a JSON body. -/
def handle (env : Env) : Option Json :=
  if env.method = "OPTIONS" then none
  else some <|
    match env.body with
    | .error e => errBody e
    | .ok urlO =>
      match urlO with
      | none => errBody "URL is required"
      | some url =>
        if url = "" then errBody "URL is required"
        else
          match env.fetch with
          | .abort => errBody "The recipe page took too long to respond."
          | .netErr m => errBody ("Could not reach the page: " ++ m)
          | .resp ok status page =>
            if !ok then errBody ("Failed to fetch page (HTTP " ++ toString status ++ ")")
            else handleCore url page env.usda

/-- A body that carries a recipe: no `error` field, and the always-set
success fields (`title`, `source_url`, `ingredients`, `instructions`)
present. -/
def isRecipeBody (b : Json) : Bool :=
  (b.getF "error").isNone && (b.getF "title").isSome && (b.getF "source_url").isSome &&
    (b.getF "ingredients").isSome && (b.getF "instructions").isSome

-- ─── Response-body helper lemmas ─────────────────────────────────────────────

theorem getF_buildObj_present (pre : List (String × Option Json)) (k : String) (v : Json)
    (post : List (String × Option Json)) (hpre : ∀ p ∈ pre, p.1 ≠ k) :
    (buildObj (pre ++ (k, some v) :: post)).getF k = some v := by
  induction pre with
  | nil => simp [buildObj, objFields, Json.getF]
  | cons p rest ih =>
    have hp : p.1 ≠ k := hpre p (by simp)
    have hrest : ∀ q ∈ rest, q.1 ≠ k := fun q hq => hpre q (by simp [hq])
    obtain ⟨pk, pv⟩ := p
    cases pv with
    | none => simpa [buildObj, objFields, Json.getF] using ih hrest
    | some w =>
      have hne : pk ≠ k := hp
      have := ih hrest
      simp only [buildObj, objFields, Json.getF, List.cons_append] at this ⊢
      rw [List.find?_cons_of_neg]
      · exact this
      · simp [hne]

theorem getF_buildObj_absent (fields : List (String × Option Json)) (k : String)
    (h : ∀ p ∈ fields, p.1 ≠ k) : (buildObj fields).getF k = none := by
  induction fields with
  | nil => simp [buildObj, objFields, Json.getF]
  | cons p rest ih =>
    have hp : p.1 ≠ k := h p (by simp)
    have hrest : ∀ q ∈ rest, q.1 ≠ k := fun q hq => h q (by simp [hq])
    obtain ⟨pk, pv⟩ := p
    cases pv with
    | none => simpa [buildObj, objFields, Json.getF] using ih hrest
    | some w =>
      have := ih hrest
      simp only [buildObj, objFields, Json.getF] at this ⊢
      rw [List.find?_cons_of_neg]
      · exact this
      · simp [hp]

/-- Field lookup on a stringified body: the first entry with the key
whose value is present. -/
theorem getF_buildObj (fields : List (String × Option Json)) (k : String) :
    (buildObj fields).getF k =
      fields.findSome? (fun p => if p.1 = k then p.2 else none) := by
  induction fields with
  | nil => simp [buildObj, objFields, Json.getF]
  | cons p rest ih =>
    obtain ⟨pk, pv⟩ := p
    by_cases hk : pk = k
    · cases pv with
      | none => simpa [buildObj, objFields, Json.getF, List.findSome?_cons, hk] using ih
      | some w => simp [buildObj, objFields, Json.getF, List.findSome?_cons, hk]
    · cases pv with
      | none => simpa [buildObj, objFields, Json.getF, List.findSome?_cons, hk] using ih
      | some w => simpa [buildObj, objFields, Json.getF, List.findSome?_cons, hk] using ih

/-- The `calories` field of a DOM-path success body renders exactly the
resolved nutrition record's `calories`. -/
theorem domBody_calories (url : String) (e : ExtractionResult) (lookup : Lookup) :
    (domBody url e lookup).getF "calories" =
      ((domNutrition e lookup).calories).map (fun i => Json.num (i : Rat)) := by
  rw [domBody, getF_buildObj]
  cases hc : (domNutrition e lookup).calories <;>
    simp [recipeBodyFields, nutritionFields, List.findSome?_cons, hc]

theorem recipeBody_getF_error (url title : String) (d i s p c : Option Json)
    (ing instr : List Json) (nr : NutritionResult) :
    (buildObj (recipeBodyFields url title d i s p c ing instr nr)).getF "error" = none := by
  rw [getF_buildObj]
  simp [recipeBodyFields, nutritionFields, List.findSome?_cons]

/-- Every body a success path builds satisfies `isRecipeBody`. -/
theorem isRecipeBody_recipeBody (url title : String) (d i s p c : Option Json)
    (ing instr : List Json) (nr : NutritionResult) :
    isRecipeBody (buildObj (recipeBodyFields url title d i s p c ing instr nr)) = true := by
  have herr := recipeBody_getF_error url title d i s p c ing instr nr
  have htitle : (buildObj (recipeBodyFields url title d i s p c ing instr nr)).getF "title" =
      some (.str title) :=
    getF_buildObj_present [] "title" (.str title) _ (by simp)
  have hsrc : (buildObj (recipeBodyFields url title d i s p c ing instr nr)).getF
      "source_url" = some (.str url) :=
    getF_buildObj_present [("title", some (.str title)), ("description", d), ("image_url", i)]
      "source_url" (.str url) _
      (by intro q hq; simp at hq; rcases hq with h | h | h <;> simp [h])
  have hing : (buildObj (recipeBodyFields url title d i s p c ing instr nr)).getF
      "ingredients" = some (.arr ing) :=
    getF_buildObj_present [("title", some (.str title)), ("description", d), ("image_url", i),
      ("source_url", some (.str url)), ("servings", s), ("prep_time", p), ("cook_time", c)]
      "ingredients" (.arr ing) _
      (by intro q hq; simp at hq; rcases hq with h | h | h | h | h | h | h <;> simp [h])
  have hinstr : (buildObj (recipeBodyFields url title d i s p c ing instr nr)).getF
      "instructions" = some (.arr instr) :=
    getF_buildObj_present [("title", some (.str title)), ("description", d), ("image_url", i),
      ("source_url", some (.str url)), ("servings", s), ("prep_time", p), ("cook_time", c),
      ("ingredients", some (.arr ing))]
      "instructions" (.arr instr) _
      (by intro q hq; simp at hq; rcases hq with h | h | h | h | h | h | h | h <;> simp [h])
  simp [isRecipeBody, herr, htitle, hsrc, hing, hinstr]

theorem recipeBody_ne_errBody (url title : String) (d i s p c : Option Json)
    (ing instr : List Json) (nr : NutritionResult) (m : String) :
    buildObj (recipeBodyFields url title d i s p c ing instr nr) ≠ errBody m := by
  intro h
  have herr := recipeBody_getF_error url title d i s p c ing instr nr
  rw [h] at herr
  simp [errBody, Json.getF] at herr

theorem isRecipeBody_errBody (m : String) : isRecipeBody (errBody m) = false := by
  simp [isRecipeBody, errBody, Json.getF]

/-- Inversion: a successful JSON-LD build is a recipe-body object. -/
theorem buildJsonLd_ok_shape (url : String) (recipe : Json) (lookup : Lookup) (b : Json)
    (h : buildJsonLd url recipe lookup = .ok b) :
    ∃ title d i s p c ing instr nr,
      b = buildObj (recipeBodyFields url title d i s p c ing instr nr) := by
  rw [buildJsonLd] at h
  cases h1 : jsonLdInstructions recipe with
  | error e => rw [h1] at h; simp [Bind.bind, Except.bind] at h
  | ok instructions =>
    rw [h1] at h
    simp only [Bind.bind, Except.bind] at h
    cases h2 : jsonLdIngredients recipe with
    | error e => rw [h2] at h; simp at h
    | ok ingredients =>
      rw [h2] at h
      simp only at h
      cases h3 : optTrimmed (recipe.getF "name") with
      | error e => rw [h3] at h; simp [Except.map] at h
      | ok t =>
        rw [h3] at h
        simp only [Except.map] at h
        cases h4 : optTrimmed (recipe.getF "description") with
        | error e => rw [h4] at h; simp at h
        | ok d =>
          rw [h4] at h
          simp only at h
          revert h
          split
          · intro h; simp at h
          · intro h
            revert h
            split
            · intro h; simp at h
            · intro h
              simp only [Except.ok.injEq] at h
              exact ⟨_, _, _, _, _, _, _, _, _, h.symm⟩

/-- Inversion for the whole post-fetch core: every body it returns is an
error body or a recipe body. -/
theorem handleCore_shape (url : String) (page : Page) (lookup : Lookup) :
    (∃ m, handleCore url page lookup = errBody m) ∨
    (∃ title d i s p c ing instr nr,
      handleCore url page lookup =
        buildObj (recipeBodyFields url title d i s p c ing instr nr)) := by
  rw [handleCore]
  cases hs : page.scripts.findSome? findRecipe with
  | some recipe =>
    cases hb : buildJsonLd url recipe lookup with
    | error m => dsimp only; rw [hb]; exact Or.inl ⟨m, rfl⟩
    | ok b =>
      dsimp only
      rw [hb]
      right
      obtain ⟨title, d, i, s', p, c, ing, instr, nr, rfl⟩ :=
        buildJsonLd_ok_shape url recipe lookup b hb
      exact ⟨title, d, i, s', p, c, ing, instr, nr, rfl⟩
  | none =>
    dsimp only
    cases hp : pickDom page with
    | none => exact Or.inl ⟨noRecipeMsg, rfl⟩
    | some e =>
      dsimp only
      by_cases hv : isValidR e
      · rw [if_pos hv]
        right
        rw [domBody]
        exact ⟨_, _, _, _, _, _, _, _, _, rfl⟩
      · rw [if_neg hv]
        exact Or.inl ⟨noRecipeMsg, rfl⟩

/-- The `ingredients` field of a DOM-path success body. -/
theorem domBody_ingredients (url : String) (e : ExtractionResult) (lookup : Lookup) :
    (domBody url e lookup).getF "ingredients" = some (.arr (e.ingredients.map .str)) := by
  exact getF_buildObj_present
    [("title", some (.str (if e.name = "" then "Untitled Recipe" else e.name))),
     ("description", e.description.map .str),
     ("image_url", e.image_url.map .str),
     ("source_url", some (.str url)),
     ("servings", e.servings.map .str),
     ("prep_time", e.prep_time.map .str),
     ("cook_time", e.cook_time.map .str)]
    "ingredients" (.arr (e.ingredients.map .str))
    (("instructions", some (.arr (e.instructions.map .str))) ::
      nutritionFields (domNutrition e lookup))
    (by intro p hp; simp at hp; rcases hp with h | h | h | h | h | h | h <;> simp [h])

/-- The `instructions` field of a DOM-path success body. -/
theorem domBody_instructions (url : String) (e : ExtractionResult) (lookup : Lookup) :
    (domBody url e lookup).getF "instructions" = some (.arr (e.instructions.map .str)) := by
  exact getF_buildObj_present
    [("title", some (.str (if e.name = "" then "Untitled Recipe" else e.name))),
     ("description", e.description.map .str),
     ("image_url", e.image_url.map .str),
     ("source_url", some (.str url)),
     ("servings", e.servings.map .str),
     ("prep_time", e.prep_time.map .str),
     ("cook_time", e.cook_time.map .str),
     ("ingredients", some (.arr (e.ingredients.map .str)))]
    "instructions" (.arr (e.instructions.map .str))
    (nutritionFields (domNutrition e lookup))
    (by intro p hp; simp at hp; rcases hp with h | h | h | h | h | h | h | h <;> simp [h])

-- ═══ Claim theorems ══════════════════════════════════════════════════════════

/-- C1 (counterexample): a page whose JSON-LD markup contains a bare
`{"@type": "Recipe"}` — no title, no ingredients, no instructions — is
accepted by strategy 1: the orchestrator builds a success response (no
`error` field) whose ingredient and instruction lists are both empty,
because the JSON-LD branch never applies the `isValid` rule. -/
theorem jsonld_accepts_empty_extraction :
    handle (Env.mk "POST" (Except.ok (some "https://x"))
        (FetchOutcome.resp true 200
          (Page.mk [Json.obj [("@type", Json.str "Recipe")]] none none none none))
        (fun _ => none)) =
      some (Json.obj [("title", Json.str "Untitled Recipe"),
        ("source_url", Json.str "https://x"),
        ("ingredients", Json.arr []), ("instructions", Json.arr [])]) ∧
    (Json.obj [("title", Json.str "Untitled Recipe"),
        ("source_url", Json.str "https://x"),
        ("ingredients", Json.arr []), ("instructions", Json.arr [])]).getF "error" = none := by
  exact ⟨by decide, by decide⟩

/-- C1 (amended): for the DOM-based strategies 2–5 the claim holds: when
the JSON-LD scan finds no Recipe object, every response the orchestrator
returns is either an `{error: ...}` body or a success body whose
ingredient or instruction list is non-empty — an extraction with both
lists empty is never accepted there.  (Strategy 1 is the exception the
counterexample exhibits: any found Recipe object wins, even with both
lists empty.) -/
theorem dom_strategies_reject_empty (env : Env) (b : Json)
    (hb : handle env = some b)
    (hscan : ∀ pOk st page, env.fetch = FetchOutcome.resp pOk st page →
      page.scripts.findSome? findRecipe = none) :
    (∃ m, b = errBody m) ∨
    (∃ i j, b.getF "ingredients" = some (.arr i) ∧ b.getF "instructions" = some (.arr j) ∧
      (i ≠ [] ∨ j ≠ [])) := by
  obtain ⟨method, body, fetch, usda⟩ := env
  by_cases hm : method = "OPTIONS"
  · simp [handle, hm] at hb
  · simp only [handle, if_neg hm, Option.some.injEq] at hb
    cases body with
    | error e => exact Or.inl ⟨e, hb.symm⟩
    | ok urlO =>
      cases urlO with
      | none => exact Or.inl ⟨"URL is required", hb.symm⟩
      | some url =>
        by_cases hu : url = ""
        · simp only [if_pos hu] at hb
          exact Or.inl ⟨"URL is required", hb.symm⟩
        · simp only [if_neg hu] at hb
          cases fetch with
          | abort => exact Or.inl ⟨_, hb.symm⟩
          | netErr m => exact Or.inl ⟨_, hb.symm⟩
          | resp pOk st page =>
            have hscan' := hscan pOk st page rfl
            cases pOk with
            | false => exact Or.inl ⟨_, hb.symm⟩
            | true =>
              simp only [Bool.not_true, Bool.false_eq_true, if_false] at hb
              rw [handleCore, hscan'] at hb
              cases hpick : pickDom page with
              | none =>
                rw [hpick] at hb
                dsimp only at hb
                exact Or.inl ⟨noRecipeMsg, hb.symm⟩
              | some e =>
                rw [hpick] at hb
                dsimp only at hb
                by_cases hv : isValidR e
                · rw [if_pos hv] at hb
                  subst hb
                  refine Or.inr ⟨e.ingredients.map .str, e.instructions.map .str,
                    domBody_ingredients url e usda, domBody_instructions url e usda, ?_⟩
                  simp only [isValidR, Bool.and_eq_true, Bool.or_eq_true,
                    decide_eq_true_eq, ne_eq] at hv
                  rcases hv.2 with h | h
                  · left
                    simp only [ne_eq, List.map_eq_nil_iff]
                    simpa [List.isEmpty_iff] using h
                  · right
                    simp only [ne_eq, List.map_eq_nil_iff]
                    simpa [List.isEmpty_iff] using h
                · rw [if_neg hv] at hb
                  exact Or.inl ⟨noRecipeMsg, hb.symm⟩

/-- C1 (witness): the amended theorem applied to a page with no JSON-LD
recipe and a valid microdata extraction. -/
theorem dom_strategies_reject_empty_witness :
    (∃ m, (Json.obj [("title", Json.str "M"), ("source_url", Json.str "https://w"),
        ("ingredients", Json.arr [Json.str "i"]), ("instructions", Json.arr [])]) = errBody m) ∨
    (∃ i j, (Json.obj [("title", Json.str "M"), ("source_url", Json.str "https://w"),
        ("ingredients", Json.arr [Json.str "i"]),
        ("instructions", Json.arr [])]).getF "ingredients" = some (.arr i) ∧
      (Json.obj [("title", Json.str "M"), ("source_url", Json.str "https://w"),
        ("ingredients", Json.arr [Json.str "i"]),
        ("instructions", Json.arr [])]).getF "instructions" = some (.arr j) ∧
      (i ≠ [] ∨ j ≠ [])) := by
  refine dom_strategies_reject_empty
    (Env.mk "POST" (Except.ok (some "https://w"))
      (FetchOutcome.resp true 200
        (Page.mk []
          (some (ExtractionResult.mk "M" none ["i"] [] none none none none none none none none))
          none none none))
      (fun _ => none)) _ (by decide) ?_
  intro pOk st page h
  cases h
  decide

/-- C2 (counterexample): a JSON-LD extraction that *supplies* `calories`
— present with value 0 — still routes to the aggregator, because the
code tests JavaScript truthiness, not presence: `hasNutrition` is false
for `{calories: 0}`, `calcFromIngredients` runs (the result depends on
the USDA lookup) and the response calories are 40, not the coerced 0. -/
theorem supplied_zero_calories_still_aggregates :
    ((Json.obj [("calories", Json.num 0)]).getF "calories").isSome = true ∧
    (extractFromSchemaOrg (Json.obj [("calories", Json.num 0)])).calories = some 0 ∧
    (jsonLdNutrition
        (Json.obj [("@type", Json.str "Recipe"),
          ("nutrition", Json.obj [("calories", Json.num 0)])])
        ["1 cup of flour"] none
        (fun n => if n = "flour" then
          some (fun k => if k = "calories" then some 100 else none) else none)).calories =
      some 40 ∧
    jsonLdNutrition
        (Json.obj [("@type", Json.str "Recipe"),
          ("nutrition", Json.obj [("calories", Json.num 0)])])
        ["1 cup of flour"] none
        (fun n => if n = "flour" then
          some (fun k => if k = "calories" then some 100 else none) else none) ≠
      jsonLdNutrition
        (Json.obj [("@type", Json.str "Recipe"),
          ("nutrition", Json.obj [("calories", Json.num 0)])])
        ["1 cup of flour"] none (fun _ => none) := by
  exact ⟨by decide, by decide, by decide, by decide⟩

/-- C2 (amended): with "supplies" read as the code's truthiness test —
a *truthy* `calories`/`proteinContent`/`carbohydrateContent` (non-zero
number, non-empty string) — the claim holds on both paths: the truthy
case yields exactly the tolerantly coerced embedded values and is
independent of the USDA lookup (the aggregator's result is never
consulted), and the non-truthy case yields exactly
`calcFromIngredients` on the extracted ingredients and servings.  The
DOM path's body renders the resolved record's fields verbatim
(`calories` shown). -/
theorem nutrition_resolution_by_truthiness (recipe : Json) (ing : List String)
    (srv : Option String) (l₁ l₂ : Lookup) (e : ExtractionResult) (url : String) :
    (jsonLdHasNutrition recipe = true →
      jsonLdNutrition recipe ing srv l₁ =
        extractFromSchemaOrg ((recipe.getF "nutrition").getD .null) ∧
      jsonLdNutrition recipe ing srv l₁ = jsonLdNutrition recipe ing srv l₂) ∧
    (jsonLdHasNutrition recipe = false →
      jsonLdNutrition recipe ing srv l₁ = calcFromIngredients ing srv l₁) ∧
    (domHasNutrition e = true →
      domNutrition e l₁ =
        { calories := parseNutritionInt (e.calories.map .str)
          protein_g := parseNutritionInt (e.protein.map .str)
          carbs_g := parseNutritionInt (e.carbs.map .str)
          fat_g := parseNutritionInt (e.fat.map .str) } ∧
      domNutrition e l₁ = domNutrition e l₂) ∧
    (domHasNutrition e = false →
      domNutrition e l₁ = calcFromIngredients e.ingredients e.servings l₁) ∧
    (domBody url e l₁).getF "calories" =
      ((domNutrition e l₁).calories).map (fun i => Json.num (i : Rat)) := by
  refine ⟨fun h => ⟨?_, ?_⟩, fun h => ?_, fun h => ⟨?_, ?_⟩, fun h => ?_,
    domBody_calories url e l₁⟩ <;>
    simp [jsonLdNutrition, domNutrition, h]

/-- C2 (witness): both branches of the amended theorem at concrete
inputs: an embedded `calories: "240 kcal"` wins untouched by the lookup,
and an absent nutrition block aggregates. -/
theorem nutrition_resolution_by_truthiness_witness :
    jsonLdNutrition (Json.obj [("nutrition", Json.obj [("calories", Json.str "240 kcal")])])
        ["1 cup of flour"] none (fun _ => none) =
      extractFromSchemaOrg
        (((Json.obj [("nutrition", Json.obj [("calories", Json.str "240 kcal")])]).getF
            "nutrition").getD .null) ∧
    jsonLdNutrition (Json.obj []) ["1 cup of flour"] none (fun _ => none) =
      calcFromIngredients ["1 cup of flour"] none (fun _ => none) := by
  refine ⟨?_, ?_⟩
  · exact (nutrition_resolution_by_truthiness
      (Json.obj [("nutrition", Json.obj [("calories", Json.str "240 kcal")])])
      ["1 cup of flour"] none (fun _ => none) (fun _ => none)
      (ExtractionResult.mk "" none [] [] none none none none none none none none)
      "u").1 (by decide) |>.1
  · exact (nutrition_resolution_by_truthiness (Json.obj [])
      ["1 cup of flour"] none (fun _ => none) (fun _ => none)
      (ExtractionResult.mk "" none [] [] none none none none none none none none)
      "u").2.1 (by decide)

theorem isValid_some (e : ExtractionResult) : isValid (some e) = isValidR e := rfl

theorem isValid_none : isValid none = false := rfl

/-- C3: the five strategies run in the fixed order JSON-LD → microdata →
plugin selectors → heading heuristic → Claude, stopping at the first
winner: (1) a found JSON-LD recipe wins outright — the response is built
from it alone, unchanged under any replacement of the four DOM-based
extractor results (in particular it is never built from microdata);
(2)–(4) each DOM strategy wins exactly when every earlier one failed and
it is valid; (5) the Claude result cannot influence the response unless
strategies 1–4 all failed; (6) when they all failed, a valid Claude
result is the winner. -/
theorem strategy_priority_order (url : String) (page : Page) (lookup : Lookup)
    (c₁ c₂ : Option ExtractionResult) :
    (∀ r, page.scripts.findSome? findRecipe = some r →
      (handleCore url page lookup =
        match buildJsonLd url r lookup with
        | .ok b => b
        | .error m => errBody m) ∧
      ∀ m p h c, handleCore url (Page.mk page.scripts m p h c) lookup =
        handleCore url page lookup) ∧
    (page.scripts.findSome? findRecipe = none →
      ∀ e, page.micro = some e → isValidR e = true →
      handleCore url page lookup = domBody url e lookup) ∧
    (page.scripts.findSome? findRecipe = none → isValid page.micro = false →
      ∀ e, page.plugins = some e → isValidR e = true →
      handleCore url page lookup = domBody url e lookup) ∧
    (page.scripts.findSome? findRecipe = none → isValid page.micro = false →
      isValid page.plugins = false →
      ∀ e, page.heading = some e → isValidR e = true →
      handleCore url page lookup = domBody url e lookup) ∧
    ((page.scripts.findSome? findRecipe ≠ none ∨ isValid page.micro = true ∨
        isValid page.plugins = true ∨ isValid page.heading = true) →
      handleCore url (Page.mk page.scripts page.micro page.plugins page.heading c₁) lookup =
        handleCore url (Page.mk page.scripts page.micro page.plugins page.heading c₂) lookup) ∧
    (page.scripts.findSome? findRecipe = none → isValid page.micro = false →
      isValid page.plugins = false → isValid page.heading = false →
      ∀ e, page.claude = some e → isValidR e = true →
      handleCore url page lookup = domBody url e lookup) := by
  refine ⟨?_, ?_, ?_, ?_, ?_, ?_⟩
  · intro r hr
    constructor
    · simp [handleCore, hr]
    · intro m p h c
      simp [handleCore, hr]
  · intro hs e he hv
    simp [handleCore, hs, pickDom, he, isValid_some, hv]
  · intro hs hm e he hv
    simp [handleCore, hs, pickDom, he, hm, isValid_some, hv]
  · intro hs hm hp e he hv
    simp [handleCore, hs, pickDom, he, hm, hp, isValid_some, hv]
  · intro hdisj
    rcases hdisj with hs | hm | hp | hh
    · cases hr : page.scripts.findSome? findRecipe with
      | none => exact absurd hr hs
      | some r => simp [handleCore, hr]
    · cases hr : page.scripts.findSome? findRecipe with
      | some r => simp [handleCore, hr]
      | none =>
        cases hm' : page.micro with
        | none => rw [hm'] at hm; simp [isValid_none] at hm
        | some e =>
          rw [hm'] at hm
          rw [isValid_some] at hm
          simp [handleCore, hr, pickDom, hm', isValid_some, hm]
    · cases hr : page.scripts.findSome? findRecipe with
      | some r => simp [handleCore, hr]
      | none =>
        cases hmv : isValid page.micro with
        | true =>
          cases hm' : page.micro with
          | none => rw [hm'] at hmv; simp [isValid_none] at hmv
          | some e =>
            rw [hm'] at hmv
            rw [isValid_some] at hmv
            simp [handleCore, hr, pickDom, hm', isValid_some, hmv]
        | false =>
          cases hp' : page.plugins with
          | none => rw [hp'] at hp; simp [isValid_none] at hp
          | some e =>
            rw [hp'] at hp
            rw [isValid_some] at hp
            simp [handleCore, hr, pickDom, hp', hmv, isValid_some, hp]
    · cases hr : page.scripts.findSome? findRecipe with
      | some r => simp [handleCore, hr]
      | none =>
        cases hmv : isValid page.micro with
        | true =>
          cases hm' : page.micro with
          | none => rw [hm'] at hmv; simp [isValid_none] at hmv
          | some e =>
            rw [hm'] at hmv
            rw [isValid_some] at hmv
            simp [handleCore, hr, pickDom, hm', isValid_some, hmv]
        | false =>
          cases hpv : isValid page.plugins with
          | true =>
            cases hp' : page.plugins with
            | none => rw [hp'] at hpv; simp [isValid_none] at hpv
            | some e =>
              rw [hp'] at hpv
              rw [isValid_some] at hpv
              simp [handleCore, hr, pickDom, hp', hmv, isValid_some, hpv]
          | false =>
            cases hh' : page.heading with
            | none => rw [hh'] at hh; simp [isValid_none] at hh
            | some e =>
              rw [hh'] at hh
              rw [isValid_some] at hh
              simp [handleCore, hr, pickDom, hh', hmv, hpv, isValid_some, hh]
  · intro hs hm hp hh e he hv
    simp [handleCore, hs, pickDom, he, hm, hp, hh, isValid_some, hv]

/-- C3 (witness): on a page carrying both a JSON-LD recipe and a valid
microdata extraction, the response is the JSON-LD one whatever the
microdata says, and the Claude result cannot change the outcome. -/
theorem strategy_priority_order_witness :
    (handleCore "https://w"
        (Page.mk [Json.obj [("@type", Json.str "Recipe"), ("name", Json.str "LD")]]
          (some (ExtractionResult.mk "Micro" none ["m"] ["s"] none none none none
            none none none none))
          none none none)
        (fun _ => none) =
      match buildJsonLd "https://w"
          (Json.obj [("@type", Json.str "Recipe"), ("name", Json.str "LD")])
          (fun _ => none) with
      | .ok b => b
      | .error m => errBody m) ∧
    handleCore "https://w"
        (Page.mk [Json.obj [("@type", Json.str "Recipe"), ("name", Json.str "LD")]]
          none none none
          (some (ExtractionResult.mk "AI" none ["a"] [] none none none none
            none none none none)))
        (fun _ => none) =
      handleCore "https://w"
        (Page.mk [Json.obj [("@type", Json.str "Recipe"), ("name", Json.str "LD")]]
          none none none none)
        (fun _ => none) := by
  constructor
  · exact ((strategy_priority_order "https://w"
      (Page.mk [Json.obj [("@type", Json.str "Recipe"), ("name", Json.str "LD")]]
        (some (ExtractionResult.mk "Micro" none ["m"] ["s"] none none none none
          none none none none))
        none none none)
      (fun _ => none) none none).1
      (Json.obj [("@type", Json.str "Recipe"), ("name", Json.str "LD")]) (by decide)).1
  · exact (strategy_priority_order "https://w"
      (Page.mk [Json.obj [("@type", Json.str "Recipe"), ("name", Json.str "LD")]]
        none none none none)
      (fun _ => none)
      (some (ExtractionResult.mk "AI" none ["a"] [] none none none none
        none none none none)) none).2.2.2.2.1
      (Or.inl (by decide))

/-- The token branch's food name is the comma/semicolon-truncated,
trimmed, lower-cased join of the tokens after some split point. -/
theorem tokenBranch_foodName (s : String) (r : ParsedIngredient)
    (h : tokenBranch s = some r) :
    ∃ i, r.foodName = jsToLower (jsTrim (jsFirstSplit
      (String.intercalate " " ((jsSplitWs s).drop i)))) := by
  simp only [tokenBranch] at h
  split at h
  · simp at h
  · split at h
    · simp at h
    · split at h
      · simp at h
      · simp only [Option.some.injEq] at h
        subst h
        exact ⟨_, rfl⟩

/-- The can branch's food name is the comma/semicolon-truncated, trimmed
(but not lower-cased) food capture. -/
theorem canBranch_foodName (s : String) (r : ParsedIngredient)
    (h : canBranch s = some r) :
    ∃ rest, r.foodName = jsTrim (jsFirstSplit rest) := by
  simp only [canBranch] at h
  split at h
  · simp at h
  · split at h
    · simp at h
    · simp only [Option.some.injEq] at h
      subst h
      exact ⟨_, rfl⟩

/-- C7 (counterexample): on the parenthetical-can line
`"1 (15 oz) can Black Beans"` the parser succeeds, but the returned food
name keeps its original capitalization — the can branch truncates and
trims and never lower-cases, contradicting the claimed "lower-cased" for
every non-null result. -/
theorem can_branch_food_name_not_lowercased :
    parseIngredient "1 (15 oz) can Black Beans" =
      some { gramWeight := 425.25, foodName := "Black Beans" } ∧
    jsToLower "Black Beans" ≠ "Black Beans" := by
  exact ⟨by decide, by decide⟩

/-- C7 (amended): for every line on which `parseIngredient` returns a
non-null result, the food name is the remaining text after the consumed
quantity/unit tokens, truncated at the first comma or semicolon and
trimmed; it is additionally lower-cased in the token-based branch, while
the parenthetical can/jar/bottle branch keeps the original letter
case. -/
theorem parseIngredient_foodName_shape (s : String) (r : ParsedIngredient)
    (h : parseIngredient s = some r) :
    (canBranch (jsTrim s) = none →
      ∃ i, r.foodName = jsToLower (jsTrim (jsFirstSplit
        (String.intercalate " " ((jsSplitWs (jsTrim s)).drop i))))) ∧
    (∀ r', canBranch (jsTrim s) = some r' →
      r = r' ∧ ∃ rest, r.foodName = jsTrim (jsFirstSplit rest)) := by
  simp only [parseIngredient] at h
  split at h
  · simp at h
  · constructor
    · intro hcan
      rw [hcan] at h
      exact tokenBranch_foodName _ _ h
    · intro r' hcan
      rw [hcan] at h
      simp only [Option.some.injEq] at h
      subst h
      exact ⟨rfl, canBranch_foodName _ _ hcan⟩

/-- C7 (witness): the amended theorem at `"1 cup of flour, sifted"`,
whose food name `"flour"` is the lower-cased trim of the truncated
token remainder. -/
theorem parseIngredient_foodName_shape_witness :
    ∃ i, (ParsedIngredient.mk 40 "flour").foodName =
      jsToLower (jsTrim (jsFirstSplit
        (String.intercalate " " ((jsSplitWs (jsTrim "1 cup of flour, sifted")).drop i)))) := by
  exact (parseIngredient_foodName_shape "1 cup of flour, sifted"
    (ParsedIngredient.mk 40 "flour") (by decide)).1 (by decide)

/-- Spec-side reading of "contains the phrase … in any letter case" as a
whole word: some case-insensitive occurrence of the phrase delimited on
both sides by a non-word character or the string edge (the `\b`
semantics of the source's guard regex). -/
def ContainsWordCI (phrase s : String) : Prop :=
  ∃ a w b, s.data = a ++ w ++ b ∧ w.map jsLowerChar = phrase.data ∧
    (a = [] ∨ ∃ c, a.getLast? = some c ∧ isWordChar c = false) ∧
    (b = [] ∨ ∃ c, b.head? = some c ∧ isWordChar c = false)

theorem phraseAt_complete (w b p : List Char) (hw : w.map jsLowerChar = p) :
    phraseAt p (w ++ b) = some b := by
  induction w generalizing p with
  | nil => subst hw; rfl
  | cons c w' ih =>
    subst hw
    simp [phraseAt, ih]

/-- The boundary invariant carried through the guard scan: at the start
of the remaining input, either nothing was consumed and the flag is
clear, or the last consumed character is a non-word character. -/
def prevOK : List Char → Bool → Prop
  | [], prevW => prevW = false
  | l, _ => ∃ c, l.getLast? = some c ∧ isWordChar c = false

theorem guardScan_complete (phrases : List (List Char)) (p : List Char)
    (hp : p ∈ phrases) (w b : List Char) (hw : w.map jsLowerChar = p) (hne : w ≠ [])
    (hb : b = [] ∨ ∃ c, b.head? = some c ∧ isWordChar c = false) :
    ∀ (a : List Char) (prevW : Bool), prevOK a prevW →
    guardScan phrases prevW (a ++ w ++ b) = true := by
  intro a
  induction a with
  | nil =>
    intro prevW hprev
    have hprev' : prevW = false := hprev
    subst hprev'
    obtain ⟨c, w', rfl⟩ : ∃ c w', w = c :: w' := by
      cases w with
      | nil => exact absurd rfl hne
      | cons c w' => exact ⟨c, w', rfl⟩
    simp only [List.nil_append, List.cons_append, guardScan]
    have hmatch : phraseAt p ((c :: w') ++ b) = some b := phraseAt_complete _ _ _ hw
    have hbd : boundaryAfter b = true := by
      rcases hb with rfl | ⟨c', hc', hcw⟩
      · rfl
      · cases b with
        | nil => rfl
        | cons x xs =>
          simp at hc'
          subst hc'
          simpa [boundaryAfter] using hcw
    have hany : phrases.any (fun q =>
        match phraseAt q (c :: (w' ++ b)) with
        | some r => boundaryAfter r
        | none => false) = true := by
      rw [List.any_eq_true]
      refine ⟨p, hp, ?_⟩
      simpa using hmatch ▸ hbd
    simp [hany]
  | cons c a' ih =>
    intro prevW hprev
    simp only [List.cons_append, guardScan]
    have : guardScan phrases (isWordChar c) (a' ++ w ++ b) = true := by
      apply ih
      cases ha' : a' with
      | nil =>
        obtain ⟨c', hc', hcw⟩ : ∃ c', (c :: a').getLast? = some c' ∧ isWordChar c' = false := by
          cases a' <;> exact hprev
        rw [ha'] at hc'
        simp at hc'
        subst hc'
        exact hcw
      | cons x xs =>
        obtain ⟨c', hc', hcw⟩ : ∃ c', (c :: a').getLast? = some c' ∧ isWordChar c' = false := by
          cases a' <;> exact hprev
        refine ⟨c', ?_, hcw⟩
        rw [ha'] at hc'
        simpa using hc'
    rw [List.append_assoc] at this
    simp [this]

/-- C8 (counterexample): `"1 cup of flouroptional"` contains the string
`"optional"`, yet `parseIngredient` returns a result — the guard regex
requires word boundaries (`\b`), so an occurrence embedded in a larger
word does not skip the line. -/
theorem substring_optional_not_skipped :
    jsIncludes "1 cup of flouroptional" "optional" = true ∧
    parseIngredient "1 cup of flouroptional" =
      some { gramWeight := 40, foodName := "flouroptional" } := by
  exact ⟨by decide, by decide⟩

/-- C8 (amended): for every ingredient line that contains "to taste",
"as needed" or "optional" *as a whole word* (delimited by non-word
characters or the string edges), in any letter case, `parseIngredient`
returns null. -/
theorem whole_word_skip_phrases_give_null (s : String)
    (h : ContainsWordCI "to taste" s ∨ ContainsWordCI "as needed" s ∨
      ContainsWordCI "optional" s) :
    parseIngredient s = none := by
  have hguard : skipGuard s = true := by
    rw [skipGuard]
    rcases h with ⟨a, w, b, hsplit, hw, ha, hb⟩ | ⟨a, w, b, hsplit, hw, ha, hb⟩ |
      ⟨a, w, b, hsplit, hw, ha, hb⟩ <;>
    · rw [hsplit]
      refine guardScan_complete skipPhrases _ (by simp [skipPhrases]) w b hw ?_ hb a false ?_
      · intro hwnil
        rw [hwnil] at hw
        simp at hw
      · cases a with
        | nil => rfl
        | cons x xs =>
          rcases ha with ha | ha
          · simp at ha
          · exact ha
  simp [parseIngredient, hguard]

/-- C8 (witness): the amended theorem at `"salt to taste"`. -/
theorem whole_word_skip_phrases_give_null_witness :
    parseIngredient "salt to taste" = none := by
  refine whole_word_skip_phrases_give_null "salt to taste" (Or.inl ?_)
  refine ⟨"salt ".data, "to taste".data, [], by decide, by decide, ?_, Or.inl rfl⟩
  exact Or.inr ⟨' ', by decide, by decide⟩

-- ─── C4: the aggregation characterized as a sum over contributions ──────────

/-- Spec side: at least one parsed-and-looked-up ingredient carries the
nutrient. -/
def contributesKey (parsed : List ParsedIngredient) (lookup : Lookup) (key : String) : Bool :=
  parsed.any (fun p =>
    match lookup p.foodName with
    | some m => (m key).isSome
    | none => false)

/-- Spec side: the total contribution of a nutrient, `per-100g value ×
gramWeight / 100` summed over the contributing ingredients. -/
def nutrientTotal (parsed : List ParsedIngredient) (lookup : Lookup) (key : String) : Rat :=
  (parsed.map (fun p =>
    match lookup p.foodName with
    | some m =>
      match m key with
      | some v => v * (p.gramWeight / 100)
      | none => 0
    | none => 0)).sum

/-- One pair's contribution to the running sum. -/
def pairTotal (key : String) (pm : ParsedIngredient × Option NutrMap) : Rat :=
  match pm.2 with
  | some m =>
    match m key with
    | some v => v * (pm.1.gramWeight / 100)
    | none => 0
  | none => 0

/-- One pair's contribution to the running count. -/
def pairCount (key : String) (pm : ParsedIngredient × Option NutrMap) : Nat :=
  match pm.2 with
  | some m => if (m key).isSome then 1 else 0
  | none => 0

theorem accumStepKeys_not_mem (gw : Rat) (m : NutrMap) (ks : List String) (acc : Accum)
    (key : String) (hk : key ∉ ks) :
    (accumStepKeys gw m ks acc).1 key = acc.1 key ∧
    (accumStepKeys gw m ks acc).2 key = acc.2 key := by
  induction ks generalizing acc with
  | nil => exact ⟨rfl, rfl⟩
  | cons k' ks' ih =>
    have hne : key ≠ k' := fun h => hk (by simp [h])
    have hks' : key ∉ ks' := fun h => hk (by simp [h])
    have step : ∀ acc' : Accum,
        (accumStepKeys gw m (k' :: ks') acc') = accumStepKeys gw m ks'
          (match m k' with
           | some v => (updMap acc'.1 k' (acc'.1 k' + v * (gw / 100)),
                        updMap acc'.2 k' (acc'.2 k' + 1))
           | none => acc') := fun _ => rfl
    rw [step]
    cases hv : m k' with
    | none => simpa using ih acc hks'
    | some v =>
      have := ih (updMap acc.1 k' (acc.1 k' + v * (gw / 100)),
        updMap acc.2 k' (acc.2 k' + 1)) hks'
      simpa [updMap, hne] using this

theorem accumStepKeys_mem (gw : Rat) (m : NutrMap) (ks : List String) (acc : Accum)
    (key : String) (hk : key ∈ ks) (hnd : ks.Nodup) :
    (accumStepKeys gw m ks acc).1 key =
      acc.1 key + (match m key with | some v => v * (gw / 100) | none => 0) ∧
    (accumStepKeys gw m ks acc).2 key =
      acc.2 key + (if (m key).isSome then 1 else 0) := by
  induction ks generalizing acc with
  | nil => simp at hk
  | cons k' ks' ih =>
    have step : ∀ acc' : Accum,
        (accumStepKeys gw m (k' :: ks') acc') = accumStepKeys gw m ks'
          (match m k' with
           | some v => (updMap acc'.1 k' (acc'.1 k' + v * (gw / 100)),
                        updMap acc'.2 k' (acc'.2 k' + 1))
           | none => acc') := fun _ => rfl
    rw [step]
    by_cases hkey : key = k'
    · subst hkey
      have hnot : key ∉ ks' := by simp at hnd; exact hnd.1
      cases hv : m key with
      | none => simpa [hv] using accumStepKeys_not_mem gw m ks' acc key hnot
      | some v =>
        have := accumStepKeys_not_mem gw m ks'
          (updMap acc.1 key (acc.1 key + v * (gw / 100)), updMap acc.2 key (acc.2 key + 1))
          key hnot
        simpa [updMap, hv] using this
    · have hk' : key ∈ ks' := by
        cases hk with
        | head => exact absurd rfl hkey
        | tail _ h => exact h
      have hnd' : ks'.Nodup := by simp at hnd; exact hnd.2
      cases hv : m k' with
      | none => exact ih acc hk' hnd'
      | some v =>
        have := ih
          (updMap acc.1 k' (acc.1 k' + v * (gw / 100)), updMap acc.2 k' (acc.2 k' + 1))
          hk' hnd'
        simpa [updMap, hkey] using this

theorem accumAll_spec (pairs : List (ParsedIngredient × Option NutrMap)) (acc : Accum)
    (key : String) (hk : key ∈ nutrientKeys) :
    (accumAll pairs acc).1 key = acc.1 key + (pairs.map (pairTotal key)).sum ∧
    (accumAll pairs acc).2 key = acc.2 key + (pairs.map (pairCount key)).sum := by
  induction pairs generalizing acc with
  | nil => simp [accumAll]
  | cons pm rest ih =>
    have hnd : nutrientKeys.Nodup := by decide
    have step : accumAll (pm :: rest) acc = accumAll rest
        (match pm.2 with
         | none => acc
         | some m => accumStep pm.1.gramWeight m acc) := rfl
    rw [step]
    cases hm : pm.2 with
    | none =>
      obtain ⟨h1, h2⟩ := ih acc
      simp only [List.map_cons, List.sum_cons, pairTotal, pairCount, hm]
      constructor
      · rw [h1]; ring
      · rw [h2]; omega
    | some m =>
      obtain ⟨s1, s2⟩ := accumStepKeys_mem pm.1.gramWeight m nutrientKeys acc key hk hnd
      obtain ⟨h1, h2⟩ := ih (accumStep pm.1.gramWeight m acc)
      simp only [List.map_cons, List.sum_cons, pairTotal, pairCount, hm]
      constructor
      · rw [h1]
        simp only [accumStep] at s1 ⊢
        rw [s1]
        cases hv : m key with
        | none => simp [hv]
        | some v => simp [hv]; ring
      · rw [h2]
        simp only [accumStep] at s2 ⊢
        rw [s2]
        cases hv : m key with
        | none => simp [hv]
        | some v => simp [hv]; omega

theorem pairs_total_eq (parsed : List ParsedIngredient) (lookup : Lookup) (key : String) :
    ((parsed.map (fun p => (p, lookup p.foodName))).map (pairTotal key)).sum =
      nutrientTotal parsed lookup key := by
  rw [List.map_map]
  rfl

theorem pairs_count_zero_iff (parsed : List ParsedIngredient) (lookup : Lookup) (key : String) :
    (((parsed.map (fun p => (p, lookup p.foodName))).map (pairCount key)).sum = 0) ↔
      contributesKey parsed lookup key = false := by
  induction parsed with
  | nil => simp [contributesKey]
  | cons p rest ih =>
    simp only [List.map_cons, List.sum_cons, contributesKey, List.any_cons] at *
    cases hl : lookup p.foodName with
    | none => simpa [pairCount, hl] using ih
    | some m =>
      cases him : (m key).isSome with
      | true => simp [pairCount, hl, him]
      | false => simpa [pairCount, hl, him] using ih

/-- The per-serving resolution of one nutrient key, as the source's
default-0 accumulator maps compute it, equals the spec-side
"present iff contributed, value = total ÷ servings" formulation, for
any rounding function. -/
theorem calcField_eq {α : Type} (ing : List String) (sstr : Option String) (lookup : Lookup)
    (key : String) (hk : key ∈ nutrientKeys) (rnd : Rat → α) :
    (Option.map rnd
      (if (accumAll ((parsedOf ing).map (fun p => (p, lookup p.foodName)))
            (fun _ => 0, fun _ => 0)).2 key = 0 then none
        else some ((accumAll ((parsedOf ing).map (fun p => (p, lookup p.foodName)))
            (fun _ => 0, fun _ => 0)).1 key / parseServingsCount sstr))) =
      (if contributesKey (parsedOf ing) lookup key = true
        then some (rnd (nutrientTotal (parsedOf ing) lookup key / parseServingsCount sstr))
        else none) := by
  obtain ⟨h1, h2⟩ := accumAll_spec ((parsedOf ing).map (fun p => (p, lookup p.foodName)))
    (fun _ => 0, fun _ => 0) key hk
  rw [h1, h2]
  dsimp only
  rw [zero_add, zero_add]
  cases hc : contributesKey (parsedOf ing) lookup key with
  | false =>
    have hzero : (((parsedOf ing).map (fun p => (p, lookup p.foodName))).map
        (pairCount key)).sum = 0 := (pairs_count_zero_iff _ _ _).mpr hc
    rw [hzero]
    simp
  | true =>
    have hnz : ¬ ((((parsedOf ing).map (fun p => (p, lookup p.foodName))).map
        (pairCount key)).sum = 0) := by
      intro h0
      rw [pairs_count_zero_iff] at h0
      rw [h0] at hc
      cases hc
    rw [if_neg hnz, pairs_total_eq]
    simp

/-- C4: in `calcFromIngredients` a nutrient field is present iff at least
one successfully looked-up ingredient contributed that nutrient (absent,
not zero, otherwise), and every present value is the sum over
contributing ingredients of per-100g value × gramWeight/100, divided by
the servings count, rounded to the nearest integer for calories,
protein, carbs, fat and sodium and to the nearest tenth for fiber, sugar
and saturated fat; the servings count parses a range to its arithmetic
mean, else the first embedded integer, else 1. -/
theorem calcFromIngredients_characterization (ing : List String) (sstr : Option String)
    (lookup : Lookup) :
    ((calcFromIngredients ing sstr lookup).calories =
      if contributesKey (parsedOf ing) lookup "calories" = true
      then some (jsRound (nutrientTotal (parsedOf ing) lookup "calories" /
        parseServingsCount sstr))
      else none) ∧
    ((calcFromIngredients ing sstr lookup).protein_g =
      if contributesKey (parsedOf ing) lookup "protein_g" = true
      then some (jsRound (nutrientTotal (parsedOf ing) lookup "protein_g" /
        parseServingsCount sstr))
      else none) ∧
    ((calcFromIngredients ing sstr lookup).carbs_g =
      if contributesKey (parsedOf ing) lookup "carbs_g" = true
      then some (jsRound (nutrientTotal (parsedOf ing) lookup "carbs_g" /
        parseServingsCount sstr))
      else none) ∧
    ((calcFromIngredients ing sstr lookup).fat_g =
      if contributesKey (parsedOf ing) lookup "fat_g" = true
      then some (jsRound (nutrientTotal (parsedOf ing) lookup "fat_g" /
        parseServingsCount sstr))
      else none) ∧
    ((calcFromIngredients ing sstr lookup).fiber_g =
      if contributesKey (parsedOf ing) lookup "fiber_g" = true
      then some (jsRound1 (nutrientTotal (parsedOf ing) lookup "fiber_g" /
        parseServingsCount sstr))
      else none) ∧
    ((calcFromIngredients ing sstr lookup).sugar_g =
      if contributesKey (parsedOf ing) lookup "sugar_g" = true
      then some (jsRound1 (nutrientTotal (parsedOf ing) lookup "sugar_g" /
        parseServingsCount sstr))
      else none) ∧
    ((calcFromIngredients ing sstr lookup).sodium_mg =
      if contributesKey (parsedOf ing) lookup "sodium_mg" = true
      then some (jsRound (nutrientTotal (parsedOf ing) lookup "sodium_mg" /
        parseServingsCount sstr))
      else none) ∧
    ((calcFromIngredients ing sstr lookup).saturated_fat_g =
      if contributesKey (parsedOf ing) lookup "saturated_fat_g" = true
      then some (jsRound1 (nutrientTotal (parsedOf ing) lookup "saturated_fat_g" /
        parseServingsCount sstr))
      else none) ∧
    parseServingsCount (some "4-6") = 5 ∧
    parseServingsCount (some "Serves 12 people") = 12 ∧
    parseServingsCount (some "family size") = 1 ∧
    parseServingsCount none = 1 := by
  refine ⟨?_, ?_, ?_, ?_, ?_, ?_, ?_, ?_, by decide, by decide, by decide, by decide⟩ <;>
  · simp only [calcFromIngredients]
    exact calcField_eq ing sstr lookup _ (by decide) _

/-- C9: every non-OPTIONS request gets a JSON body that is either an
`{error: ...}` object or a recipe object, never both, never neither: a
missing (or empty) `url` yields exactly `{error: "URL is required"}`, a
`req.json()` exception surfaces as its message, fetch failures and
non-2xx statuses yield the corresponding error bodies, and the
success-path bodies never carry an `error` key. -/
theorem response_error_xor_recipe (env : Env) (hm : env.method ≠ "OPTIONS") :
    (∃ b, handle env = some b) ∧
    (∀ b, handle env = some b →
      (((∃ m, b = errBody m) ∧ isRecipeBody b = false) ∨
        (isRecipeBody b = true ∧ ¬ ∃ m, b = errBody m)) ∧
      (env.body = .ok none → b = errBody "URL is required") ∧
      (env.body = .ok (some "") → b = errBody "URL is required") ∧
      (∀ e, env.body = .error e → b = errBody e) ∧
      (∀ url, env.body = .ok (some url) → url ≠ "" → env.fetch = .abort →
        b = errBody "The recipe page took too long to respond.") ∧
      (∀ url m, env.body = .ok (some url) → url ≠ "" → env.fetch = .netErr m →
        b = errBody ("Could not reach the page: " ++ m)) ∧
      (∀ url st page, env.body = .ok (some url) → url ≠ "" →
        env.fetch = .resp false st page →
        b = errBody ("Failed to fetch page (HTTP " ++ toString st ++ ")"))) := by
  obtain ⟨method, body, fetch, usda⟩ := env
  simp only at hm ⊢
  have hsome : handle (Env.mk method body fetch usda) =
      some (match body with
        | .error e => errBody e
        | .ok urlO =>
          match urlO with
          | none => errBody "URL is required"
          | some url =>
            if url = "" then errBody "URL is required"
            else
              match fetch with
              | .abort => errBody "The recipe page took too long to respond."
              | .netErr m => errBody ("Could not reach the page: " ++ m)
              | .resp ok status page =>
                if !ok then errBody ("Failed to fetch page (HTTP " ++ toString status ++ ")")
                else handleCore url page usda) := by
    simp [handle, hm]
  refine ⟨⟨_, hsome⟩, ?_⟩
  intro b hb
  rw [hsome, Option.some_inj] at hb
  have herrCase : ∀ m, b = errBody m →
      ((∃ m, b = errBody m) ∧ isRecipeBody b = false) ∨
        (isRecipeBody b = true ∧ ¬ ∃ m, b = errBody m) := by
    intro m hbe
    exact Or.inl ⟨⟨m, hbe⟩, by rw [hbe]; exact isRecipeBody_errBody m⟩
  cases body with
  | error e =>
    refine ⟨herrCase e hb.symm, by simp, by simp, ?_, by simp, by simp, by simp⟩
    intro e' he'
    cases he'
    exact hb.symm
  | ok urlO =>
    cases urlO with
    | none =>
      exact ⟨herrCase _ hb.symm, fun _ => hb.symm, by simp, by simp, by simp, by simp, by simp⟩
    | some url =>
      dsimp only at hb
      by_cases hu : url = ""
      · rw [if_pos hu] at hb
        subst hu
        refine ⟨herrCase _ hb.symm, by simp, fun _ => hb.symm, by simp, ?_, ?_, ?_⟩
        · intro url' h1 h2 h3
          simp only [Except.ok.injEq, Option.some.injEq] at h1
          exact absurd h1.symm h2
        · intro url' m' h1 h2 h3
          simp only [Except.ok.injEq, Option.some.injEq] at h1
          exact absurd h1.symm h2
        · intro url' st' page' h1 h2 h3
          simp only [Except.ok.injEq, Option.some.injEq] at h1
          exact absurd h1.symm h2
      · rw [if_neg hu] at hb
        cases fetch with
        | abort =>
          refine ⟨herrCase _ hb.symm, by simp, by simp [hu, Eq.comm], by simp, ?_, by simp,
            by simp⟩
          intro url' h1 h2 h3
          exact hb.symm
        | netErr m =>
          refine ⟨herrCase _ hb.symm, by simp, by simp [hu, Eq.comm], by simp, by simp, ?_,
            by simp⟩
          intro url' m' h1 h2 h3
          cases h3
          exact hb.symm
        | resp pOk st page =>
          cases pOk with
          | false =>
            refine ⟨herrCase _ hb.symm, by simp, by simp [hu, Eq.comm], by simp, by simp,
              by simp, ?_⟩
            intro url' st' page' h1 h2 h3
            cases h3
            exact hb.symm
          | true =>
            simp only [Bool.not_true, Bool.false_eq_true, if_false] at hb
            refine ⟨?_, by simp, by simp [hu, Eq.comm], by simp, by simp, by simp, by simp⟩
            rcases handleCore_shape url page usda with ⟨m, hcs⟩ |
              ⟨title, d, i, s', p, c, ing, instr, nr, hcs⟩
            · exact herrCase m (by rw [← hb, hcs])
            · right
              have hb' : b = buildObj (recipeBodyFields url title d i s' p c ing instr nr) := by
                rw [← hb, hcs]
              rw [hb']
              exact ⟨isRecipeBody_recipeBody url title d i s' p c ing instr nr,
                fun ⟨m, hmm⟩ => recipeBody_ne_errBody url title d i s' p c ing instr nr m hmm⟩

/-- C9 (witness): the theorem at a concrete request without a `url`
yields exactly the required error body. -/
theorem response_error_xor_recipe_witness :
    handle (Env.mk "POST" (Except.ok none) FetchOutcome.abort (fun _ => none)) =
      some (errBody "URL is required") := by
  have h := response_error_xor_recipe
    (Env.mk "POST" (Except.ok none) FetchOutcome.abort (fun _ => none)) (by decide)
  obtain ⟨⟨b, hb⟩, hall⟩ := h
  rw [hb, ((hall b hb).2.1 rfl)]

theorem not_isDigit_of_jsIsWs (c : Char) (h : jsIsWs c = true) : c.isDigit = false := by
  simp only [jsIsWs, Bool.or_eq_true, decide_eq_true_eq] at h
  rcases h with ((((rfl | rfl) | rfl) | rfl) | rfl) | rfl <;> decide

theorem trimLeadingWs_of_digits (l : List Char) (h : ∀ c ∈ l, c.isDigit = true) :
    trimLeadingWs l = l := by
  cases l with
  | nil => rfl
  | cons c rest =>
    have hd := h c (by simp)
    have : jsIsWs c = false := by
      cases hw : jsIsWs c with
      | false => rfl
      | true => rw [not_isDigit_of_jsIsWs c hw] at hd; cases hd
    simp [trimLeadingWs, this]

theorem mem_of_mem_trimLeadingWs {c : Char} {l : List Char}
    (h : c ∈ trimLeadingWs l) : c ∈ l :=
  (List.dropWhile_sublist jsIsWs).subset h

theorem jsParseInt_nonneg_of_digits (s : String) (hd : ∀ c ∈ s.data, c.isDigit = true)
    (n : Int) (h : jsParseInt s = some n) : 0 ≤ n := by
  simp only [jsParseInt] at h
  split at h
  · rename_i rest heq
    have : ('-' : Char) ∈ s.data := mem_of_mem_trimLeadingWs (by rw [heq]; simp)
    have := hd _ this
    simp at this
  · rename_i rest heq
    have : ('+' : Char) ∈ s.data := mem_of_mem_trimLeadingWs (by rw [heq]; simp)
    have := hd _ this
    simp at this
  · rw [Option.map_eq_some'] at h
    obtain ⟨a, ha, hfa⟩ := h
    split at ha
    · cases ha
    · injection ha with ha'
      subst ha'
      subst hfa
      positivity

theorem floatMant_nonneg (intDs fracDs : List Char) : 0 ≤ floatMant intDs fracDs := by
  rw [floatMant]
  positivity

theorem expApplyCore_nonneg (mant : Rat) (hm : 0 ≤ mant) (r' : List Char) :
    0 ≤ expApplyCore mant r' := by
  rw [expApplyCore]
  split
  · exact hm
  · split
    · exact div_nonneg hm (by positivity)
    · exact mul_nonneg hm (by positivity)

theorem expApply_nonneg (mant : Rat) (hm : 0 ≤ mant) (r : List Char) :
    0 ≤ expApply mant r := by
  rw [expApply.eq_def]
  split
  · exact expApplyCore_nonneg mant hm _
  · exact expApplyCore_nonneg mant hm _
  · exact hm

theorem jsParseFloatMag_nonneg (l : List Char) (q : Rat)
    (h : jsParseFloatMag l = some q) : 0 ≤ q := by
  simp only [jsParseFloatMag] at h
  split at h
  · simp at h
  · simp only [Option.some.injEq] at h
    subst h
    exact expApply_nonneg _ (floatMant_nonneg _ _) _

theorem jsParseFloat_nonneg_of_no_minus (s : String) (hm : ('-' : Char) ∉ s.data)
    (q : Rat) (h : jsParseFloat s = some q) : 0 ≤ q := by
  simp only [jsParseFloat] at h
  split at h
  · rename_i rest heq
    exact absurd (mem_of_mem_trimLeadingWs (by rw [heq]; simp)) hm
  · rename_i rest heq
    exact jsParseFloatMag_nonneg _ _ h
  · exact jsParseFloatMag_nonneg _ _ h

/-- C10: the tolerant numeric coercion strips every non-digit character
before integer parsing, so `parseNutritionInt` never returns a negative
number and `"3.5 g"` coerces to 35 (the digits concatenated);
`parseNutritionFloat` deletes minus signs (keeping only digits and the
decimal point), so every coerced nutrition value is non-negative —
`"-2.5 g"` coerces to 2.5. -/
theorem tolerant_coercion_nonneg :
    (∀ v n, parseNutritionInt v = some n → 0 ≤ n) ∧
    parseNutritionInt (some (Json.str "3.5 g")) = some 35 ∧
    (∀ v q, parseNutritionFloat v = some q → 0 ≤ q) ∧
    parseNutritionFloat (some (Json.str "-2.5 g")) = some (5/2) := by
  refine ⟨?_, by decide, ?_, by decide⟩
  · intro v n h
    match v with
    | none => cases h
    | some .null => cases h
    | some (.bool b) =>
      have h' : jsParseInt ⟨(jsToStr (some (Json.bool b))).data.filter Char.isDigit⟩ =
        some n := h
      exact jsParseInt_nonneg_of_digits _ (fun c hc => (List.mem_filter.mp hc).2) n h'
    | some (.num r) =>
      have h' : jsParseInt ⟨(jsToStr (some (Json.num r))).data.filter Char.isDigit⟩ =
        some n := h
      exact jsParseInt_nonneg_of_digits _ (fun c hc => (List.mem_filter.mp hc).2) n h'
    | some (.str t) =>
      have h' : jsParseInt ⟨(jsToStr (some (Json.str t))).data.filter Char.isDigit⟩ =
        some n := h
      exact jsParseInt_nonneg_of_digits _ (fun c hc => (List.mem_filter.mp hc).2) n h'
    | some (.arr xs) =>
      have h' : jsParseInt ⟨(jsToStr (some (Json.arr xs))).data.filter Char.isDigit⟩ =
        some n := h
      exact jsParseInt_nonneg_of_digits _ (fun c hc => (List.mem_filter.mp hc).2) n h'
    | some (.obj fs) =>
      have h' : jsParseInt ⟨(jsToStr (some (Json.obj fs))).data.filter Char.isDigit⟩ =
        some n := h
      exact jsParseInt_nonneg_of_digits _ (fun c hc => (List.mem_filter.mp hc).2) n h'
  · intro v q h
    have hfilter : ∀ (l : List Char),
        ('-' : Char) ∉ l.filter (fun c => c.isDigit || c = '.') := by
      intro l hmem
      have := (List.mem_filter.mp hmem).2
      simp at this
    match v with
    | none => cases h
    | some .null => cases h
    | some (.bool b) =>
      have h' : jsParseFloat ⟨(jsToStr (some (Json.bool b))).data.filter
        (fun c => c.isDigit || c = '.')⟩ = some q := h
      exact jsParseFloat_nonneg_of_no_minus _ (hfilter _) q h'
    | some (.num r) =>
      have h' : jsParseFloat ⟨(jsToStr (some (Json.num r))).data.filter
        (fun c => c.isDigit || c = '.')⟩ = some q := h
      exact jsParseFloat_nonneg_of_no_minus _ (hfilter _) q h'
    | some (.str t) =>
      have h' : jsParseFloat ⟨(jsToStr (some (Json.str t))).data.filter
        (fun c => c.isDigit || c = '.')⟩ = some q := h
      exact jsParseFloat_nonneg_of_no_minus _ (hfilter _) q h'
    | some (.arr xs) =>
      have h' : jsParseFloat ⟨(jsToStr (some (Json.arr xs))).data.filter
        (fun c => c.isDigit || c = '.')⟩ = some q := h
      exact jsParseFloat_nonneg_of_no_minus _ (hfilter _) q h'
    | some (.obj fs) =>
      have h' : jsParseFloat ⟨(jsToStr (some (Json.obj fs))).data.filter
        (fun c => c.isDigit || c = '.')⟩ = some q := h
      exact jsParseFloat_nonneg_of_no_minus _ (hfilter _) q h'

/-- C10 (witness): the theorem's nonnegativity clauses at the concrete
coercions. -/
theorem tolerant_coercion_nonneg_witness : (0 : Int) ≤ 35 ∧ (0 : Rat) ≤ 5/2 := by
  constructor
  · exact tolerant_coercion_nonneg.1 (some (Json.str "3.5 g")) 35 (by decide)
  · exact tolerant_coercion_nonneg.2.2.1 (some (Json.str "-2.5 g")) (5/2) (by decide)

/-- C5: `parseQuantity` maps the spec's grammar forms to these exact
values: `"1 1/2"` (mixed number) to 1.5, `"1-2"` (range, arithmetic
mean) to 1.5, `"1/2"` (simple fraction) to 0.5, and `"3"` (plain number)
to 3. -/
theorem parseQuantity_grammar_values :
    parseQuantity "1 1/2" = some (3/2) ∧ parseQuantity "1-2" = some (3/2) ∧
    parseQuantity "1/2" = some (1/2) ∧ parseQuantity "3" = some 3 := by
  refine ⟨?_, ?_, ?_, ?_⟩ <;> decide

/-- C6 (failing-input evaluation): on `"2 cups flour"` the quantity loop
first feeds all three tokens to `parseQuantity`, whose plain-number
fallback is `parseFloat` and accepts the trailing `" cups flour"`, so the
quantity consumes every token, the remaining food name is empty, and
`parseIngredient` returns `null` — not the claimed
`{gramWeight := 250, foodName := "flour"}`. -/
theorem parseIngredient_two_cups_flour_is_none :
    parseIngredient "2 cups flour" = none ∧
    parseQuantity (String.intercalate " " (jsSplitWs "2 cups flour")) = some 2 := by
  exact ⟨by decide, by decide⟩

end Recipe
